import Mathlib

/-!
Verification of the deduplication and matching engine of the `discovery`
media-catalog application, shallowly embedded from the Python sources
(`discovery/utils.py`, `discovery/db.py`, `discovery/importers/base.py`).

Strings are modelled as `List Char` (`Str`).  Python's ASCII-oriented
text operations (`str.lower`, the `\s`/`\w` regex classes, `str.strip`,
`str.split`) are modelled on that representation.  The regular
expressions used by the source are all end-anchored `re.sub` deletions;
they are embedded by `dropSuffixAt`, which removes everything from the
leftmost position whose suffix matches the pattern, exactly as `re.sub`
does for an end-anchored pattern.
-/

abbrev Str := List Char

/-- Python `\s` / `str.isspace` on the ASCII range: space, tab, newline,
carriage return, vertical tab, form feed. -/
def isSpaceChar (c : Char) : Bool :=
  c = ' ' || c = '\t' || c = '\n' || c = '\r' || c = '\x0b' || c = '\x0c'

/-- Python `\w` on the ASCII range: letters, digits and underscore. -/
def isWordChar (c : Char) : Bool :=
  c.isAlphanum || c = '_'

/-- Characters matched by the `[ivxlcdm]+` roman-numeral class of
`strip_sequel_numbers` (the pattern carries `re.IGNORECASE`). -/
def isRomanChar (c : Char) : Bool :=
  c = 'i' || c = 'v' || c = 'x' || c = 'l' || c = 'c' || c = 'd' || c = 'm' ||
  c = 'I' || c = 'V' || c = 'X' || c = 'L' || c = 'C' || c = 'D' || c = 'M'

/-- Python `str.lower` on the ASCII range (the sources are
ASCII-oriented); `Char.toLower` maps `A`-`Z` to `a`-`z` and fixes
everything else, which is exactly the behaviour used here. -/
def pyLower (s : Str) : Str := s.map Char.toLower

/-- Python `str.strip`: remove leading and trailing whitespace. -/
def pyStrip (s : Str) : Str :=
  ((s.dropWhile isSpaceChar).reverse.dropWhile isSpaceChar).reverse

/-- Helper for `pySplitWs`: `cur` is the reversed word currently being
gathered. -/
def splitWsAux : Str → Str → List Str
  | [], cur => if cur.isEmpty then [] else [cur.reverse]
  | c :: t, cur =>
    if isSpaceChar c then
      if cur.isEmpty then splitWsAux t [] else cur.reverse :: splitWsAux t []
    else splitWsAux t (c :: cur)

/-- Python `str.split()` with no separator: split on whitespace runs,
dropping empty pieces. -/
def pySplitWs (s : Str) : List Str := splitWsAux s []

/-- Join words with single spaces (`" ".join`). -/
def joinWords : List Str → Str
  | [] => []
  | [w] => w
  | w :: ws => w ++ ' ' :: joinWords ws

/-- `re.sub(r"\s+", " ", s).strip()`: collapse whitespace runs to single
spaces and trim the ends, i.e. rejoin the whitespace-split words. -/
def collapseWs (s : Str) : Str := joinWords (pySplitWs s)

/-- Python's substring test `needle in hay`. -/
def containsSub (needle : Str) : Str → Bool
  | [] => needle.isEmpty
  | c :: t => needle.isPrefixOf (c :: t) || containsSub needle t

/-- `re.sub(pat, "", s)` for an end-anchored pattern: `p` decides whether
a suffix of the string matches the pattern; the substitution deletes
everything from the leftmost position whose suffix matches. -/
def dropSuffixAt (p : Str → Bool) : Str → Str
  | [] => []
  | c :: t => if p (c :: t) then [] else c :: dropSuffixAt p t

/-- The edition/version keywords shared by the first three patterns of
`normalize_title`. -/
def editionKeywords : List Str :=
  [['e','d','i','t','i','o','n'], ['r','e','m','a','s','t','e','r'],
   ['d','e','l','u','x','e'], ['v','e','r','s','i','o','n'],
   ['e','x','p','a','n','d','e','d']]

def containsKeyword (s : Str) : Bool :=
  editionKeywords.any (fun k => containsSub k s)

/-- Suffix match for `\s*\(.*?(edition|remaster|deluxe|version|expanded).*?\)\s*$`:
optional spaces, an opening parenthesis, any text containing a keyword,
a closing parenthesis followed only by spaces. -/
def suffixParenKw (xs : Str) : Bool :=
  match xs.dropWhile isSpaceChar with
  | [] => false
  | c :: r =>
    decide (c = '(') &&
      (match r.reverse.dropWhile isSpaceChar with
       | [] => false
       | c2 :: m => decide (c2 = ')') && containsKeyword m.reverse)

/-- Suffix match for `\s*-\s*.*?(edition|...).*$`. -/
def suffixDashKw (xs : Str) : Bool :=
  match xs.dropWhile isSpaceChar with
  | [] => false
  | c :: r => decide (c = '-') && containsKeyword r

/-- Suffix match for `\s*:\s*.*?(edition|...).*$`. -/
def suffixColonKw (xs : Str) : Bool :=
  match xs.dropWhile isSpaceChar with
  | [] => false
  | c :: r => decide (c = ':') && containsKeyword r

/-- Suffix match for `\s+\(remastered\)\s*$` / `\s+\(deluxe\)\s*$`:
at least one space, the literal word in parentheses, trailing spaces. -/
def suffixLitParen (lit : Str) (xs : Str) : Bool :=
  match xs with
  | [] => false
  | c :: _ =>
    isSpaceChar c &&
      (lit.isPrefixOf (xs.dropWhile isSpaceChar) &&
        ((xs.dropWhile isSpaceChar).drop lit.length).all isSpaceChar)

def remasteredLit : Str :=
  ['(','r','e','m','a','s','t','e','r','e','d',')']

def deluxeLit : Str :=
  ['(','d','e','l','u','x','e',')']

/-- The five edition-stripping substitutions of `normalize_title`,
applied in source order. -/
def editionSubs (s : Str) : Str :=
  dropSuffixAt (suffixLitParen deluxeLit)
    (dropSuffixAt (suffixLitParen remasteredLit)
      (dropSuffixAt suffixColonKw
        (dropSuffixAt suffixDashKw
          (dropSuffixAt suffixParenKw s))))

def theTok : Str := ['t','h','e',' ']
def aTok : Str := ['a',' ']
def anTok : Str := ['a','n',' ']

/-- One step of the prefix loop of `normalize_title`:
`if normalized.startswith(prefix): normalized = normalized[len(prefix):]`. -/
def stripOneArticle (s p : Str) : Str :=
  if p.isPrefixOf s then s.drop p.length else s

/-- The article-stripping loop, iterating over `("the ", "a ", "an ")`. -/
def stripArticles (s : Str) : Str :=
  [theTok, aTok, anTok].foldl stripOneArticle s

/-- `normalize_title` from `discovery/utils.py`: lowercase, the article
loop, the edition substitutions (when `strip_editions`), removal of
non-word non-space characters, whitespace collapsing and trimming. -/
def normalize_title (title : Str) (strip_editions : Bool) : Str :=
  if title.isEmpty then []
  else
    let n1 := pyLower title
    let n2 := stripArticles n1
    let n3 := if strip_editions then editionSubs n2 else n2
    let n4 := n3.filter (fun c => isWordChar c || isSpaceChar c)
    collapseWs n4

/-- Suffix match for `\s+[ivxlcdm]+$` (with `re.IGNORECASE`). -/
def suffixRoman (xs : Str) : Bool :=
  match xs with
  | [] => false
  | c :: _ =>
    isSpaceChar c &&
      (let a := xs.dropWhile isSpaceChar
       !a.isEmpty && a.all isRomanChar)

/-- Suffix match for `\s+\d+$`. -/
def suffixDigits (xs : Str) : Bool :=
  match xs with
  | [] => false
  | c :: _ =>
    isSpaceChar c &&
      (let a := xs.dropWhile isSpaceChar
       !a.isEmpty && a.all Char.isDigit)

/-- `strip_sequel_numbers` from `discovery/utils.py`: delete a trailing
roman-numeral token, then a trailing decimal token, then strip. -/
def strip_sequel_numbers (title : Str) : Str :=
  pyStrip (dropSuffixAt suffixDigits (dropSuffixAt suffixRoman title))

/-- Longest-common-subsequence length with explicit fuel (the fuel keeps
the definition structurally recursive so that it evaluates inside the
kernel); `lcsLen` supplies enough fuel. -/
def lcsFuel : Nat → Str → Str → Nat
  | 0, _, _ => 0
  | _ + 1, [], _ => 0
  | _ + 1, _ :: _, [] => 0
  | fuel + 1, a :: as, b :: bs =>
    if a = b then lcsFuel fuel as bs + 1
    else max (lcsFuel fuel (a :: as) bs) (lcsFuel fuel as (b :: bs))

def lcsLen (a b : Str) : Nat := lcsFuel (a.length + b.length) a b

/-- Modelled from the spec: the "symmetric edit-distance-based ratio
(0-100)" used for creator similarity (rapidfuzz `fuzz.ratio`, an external
library, not part of this repository's sources): the normalized
insert/delete distance turned into a similarity, `200*lcs/(|a|+|b|)`,
with two empty strings scoring 100. -/
def fuzzRatio (a b : Str) : ℚ :=
  if a.length + b.length = 0 then 100
  else (200 * lcsLen a b : ℚ) / ((a.length : ℚ) + (b.length : ℚ))

/-- Executable form of `score >= threshold` for `fuzzRatio`, phrased
with natural-number cross-multiplication so that it evaluates inside the
kernel (rational division does not). -/
def fuzzRatioGe (a b : Str) (t : Nat) : Bool :=
  if a.length + b.length = 0 then decide (t ≤ 100)
  else decide (t * (a.length + b.length) ≤ 200 * lcsLen a b)

def strLexLe : Str → Str → Bool
  | [], _ => true
  | _ :: _, [] => false
  | a :: as, b :: bs => if a = b then strLexLe as bs else decide (a < b)

def insertSorted (w : Str) : List Str → List Str
  | [] => [w]
  | x :: xs => if strLexLe w x then w :: x :: xs else x :: insertSorted w xs

def sortStrs : List Str → List Str
  | [] => []
  | x :: xs => insertSorted x (sortStrs xs)

def dedupStrs : List Str → List Str
  | [] => []
  | x :: xs => if xs.contains x then dedupStrs xs else x :: dedupStrs xs

/-- The sorted set of whitespace-delimited tokens of a string. -/
def tokensOf (s : Str) : List Str := sortStrs (dedupStrs (pySplitWs s))

/-- Modelled from the spec: `score >= threshold` for the "token-set
similarity score (word-order- and duplicate-word-insensitive fuzzy
ratio, 0-100)" used for title similarity (rapidfuzz
`fuzz.token_set_ratio`, an external library, not part of this
repository's sources).  Compares the sorted token sets: 100 when one
token set contains the other (with a nonempty intersection), otherwise
the best of the ratio between the joined difference strings and the two
length-based intersection-against-whole ratios.  Each `ratio >= t`
comparison is phrased by cross-multiplication so that it evaluates
inside the kernel. -/
def tokenSetRatioGe (s1 s2 : Str) (t : Nat) : Bool :=
  let ta := tokensOf s1
  let tb := tokensOf s2
  if ta.isEmpty || tb.isEmpty then decide (t = 0)
  else
    let sect := ta.filter (fun w => tb.contains w)
    let dab := ta.filter (fun w => !tb.contains w)
    let dba := tb.filter (fun w => !ta.contains w)
    if !sect.isEmpty && (dab.isEmpty || dba.isEmpty) then decide (t ≤ 100)
    else
      let sAB := joinWords dab
      let sBA := joinWords dba
      let sectLen : Nat := (joinWords sect).length
      let one : Nat := if sectLen = 0 then 0 else 1
      let sectABLen := sectLen + one + sAB.length
      let sectBALen := sectLen + one + sBA.length
      -- r1 = fuzzRatio sAB sBA; r2 = 100*(1 - (one+|sAB|)/(sectLen+sectABLen));
      -- r3 likewise for sBA; the score is max r1 (max r2 r3).
      fuzzRatioGe sAB sBA t ||
        (if sectLen + sectABLen = 0 then decide (t ≤ 100)
         else decide (t * (sectLen + sectABLen) ≤ 100 * (2 * sectLen))) ||
        (if sectLen + sectBALen = 0 then decide (t ≤ 100)
         else decide (t * (sectLen + sectBALen) ≤ 100 * (2 * sectLen)))

/-- The `parts1 and parts2 and parts1[-1] == parts2[-1]` last-name test
of `creators_match`. -/
def lastTokensEqual (p1 p2 : List Str) : Bool :=
  match p1.getLast?, p2.getLast? with
  | some w1, some w2 => decide (w1 = w2)
  | _, _ => false

/-- `titles_match` from `discovery/utils.py`: normalized equality, then
substring containment with a length-5 floor on the shorter string, then
equality after sequel-number stripping, then the token-set ratio against
the threshold (default 85 at call sites). -/
def titles_match (title1 title2 : Option Str) (threshold : Nat) : Bool :=
  match title1, title2 with
  | some s1, some s2 =>
    if s1.isEmpty || s2.isEmpty then false
    else
      let norm1 := normalize_title s1 true
      let norm2 := normalize_title s2 true
      if norm1 = norm2 then true
      else if (containsSub norm1 norm2 || containsSub norm2 norm1)
          && decide (5 ≤ min norm1.length norm2.length) then true
      else
        let stripped1 := strip_sequel_numbers norm1
        let stripped2 := strip_sequel_numbers norm2
        if !stripped1.isEmpty && !stripped2.isEmpty && stripped1 = stripped2 then true
        else tokenSetRatioGe norm1 norm2 threshold
  | _, _ => false

/-- `titles_match_strict` from `discovery/utils.py`: the same branch
structure as `titles_match`, used with threshold 92. -/
def titles_match_strict (title1 title2 : Option Str) (threshold : Nat) : Bool :=
  match title1, title2 with
  | some s1, some s2 =>
    if s1.isEmpty || s2.isEmpty then false
    else
      let norm1 := normalize_title s1 true
      let norm2 := normalize_title s2 true
      if norm1 = norm2 then true
      else if (containsSub norm1 norm2 || containsSub norm2 norm1)
          && decide (5 ≤ min norm1.length norm2.length) then true
      else
        let stripped1 := strip_sequel_numbers norm1
        let stripped2 := strip_sequel_numbers norm2
        if !stripped1.isEmpty && !stripped2.isEmpty && stripped1 = stripped2 then true
        else tokenSetRatioGe norm1 norm2 threshold
  | _, _ => false

/-- `creators_match` from `discovery/utils.py`: a missing or empty
creator always matches; otherwise lowercase+trim both and test equality,
substring containment either way, equal final tokens, and finally the
edit-distance ratio against the threshold (default 80 at call sites). -/
def creators_match (creator1 creator2 : Option Str) (threshold : Nat) : Bool :=
  match creator1, creator2 with
  | none, _ => true
  | _, none => true
  | some s1, some s2 =>
    if s1.isEmpty || s2.isEmpty then true
    else
      let c1 := pyStrip (pyLower s1)
      let c2 := pyStrip (pyLower s2)
      if c1 = c2 then true
      else if containsSub c1 c2 || containsSub c2 c1 then true
      else if lastTokensEqual (pySplitWs c1) (pySplitWs c2) then true
      else fuzzRatioGe c1 c2 threshold

/-! ## Data model (`discovery/models.py`) and store (`discovery/db.py`)

Opaque identifiers (uuid strings) are modelled as `Nat`, timestamps as
`Nat`, JSON metadata maps as association lists.  SQL result order is
unspecified by the source; the model returns rows in insertion order. -/

inductive Category
  | music | game | book | movie | tv | paper | podcast
deriving DecidableEq, Repr

inductive Source
  | apple_music | spotify | qobuz | steam | goodreads | kindle
  | netflix | apple_tv | amazon_prime | disney_plus | bbc_iplayer
  | apple_podcasts | arxiv | manual
deriving DecidableEq, Repr

structure Item where
  id : Nat
  category : Category
  title : Str
  creator : Option Str
  metadata : List (Str × Str)
  createdAt : Nat
  updatedAt : Nat
deriving DecidableEq, Repr

structure ItemSource where
  itemId : Nat
  source : Source
  sourceId : Str
  sourceLoved : Option Bool
  sourceData : List (Str × Str)
  lastSynced : Nat
deriving DecidableEq, Repr

structure Store where
  items : List Item
  sources : List ItemSource
deriving DecidableEq, Repr

/-- `Database.upsert_item` on the `items` rows: insert, or on an `id`
conflict overwrite title/creator/metadata/updated_at; the stored
category and created_at are not touched by the conflict update. -/
def upsertItemRows (rows : List Item) (it : Item) : List Item :=
  if rows.any (fun r => decide (r.id = it.id)) then
    rows.map (fun r =>
      if r.id = it.id then
        {r with title := it.title, creator := it.creator,
                metadata := it.metadata, updatedAt := it.updatedAt}
      else r)
  else rows ++ [it]

/-- `Database.upsert_item_source` on the `item_sources` rows: insert, or
on an `(item_id, source)` conflict overwrite
source_loved/source_data/last_synced; the stored source_id is not
touched by the conflict update. -/
def upsertSourceRows (rows : List ItemSource) (l : ItemSource) : List ItemSource :=
  if rows.any (fun r => decide (r.itemId = l.itemId) && decide (r.source = l.source)) then
    rows.map (fun r =>
      if r.itemId = l.itemId ∧ r.source = l.source then
        {r with sourceLoved := l.sourceLoved, sourceData := l.sourceData,
                lastSynced := l.lastSynced}
      else r)
  else rows ++ [l]

def upsert_item (store : Store) (it : Item) : Store :=
  {store with items := upsertItemRows store.items it}

def upsert_item_source (store : Store) (l : ItemSource) : Store :=
  {store with sources := upsertSourceRows store.sources l}

/-- `Database.find_item_by_source`: the first `item_sources` row with
the given source and source id, joined to its item. -/
def find_item_by_source (store : Store) (src : Source) (sid : Str) : Option Item :=
  match store.sources.find? (fun l => decide (l.source = src) && decide (l.sourceId = sid)) with
  | some l => store.items.find? (fun i => decide (i.id = l.itemId))
  | none => none

/-- SQL `ILIKE '%needle%'`: case-insensitive containment (NULL columns
are handled at the call sites). -/
def likeContains (hay needle : Str) : Bool :=
  containsSub (pyLower needle) (pyLower hay)

/-- The row filter of `Database.search_items`:
`title ILIKE %query% OR creator ILIKE %query%` (a NULL creator never
matches) and the optional category restriction. -/
def searchPred (query : Str) (category : Option Category) (i : Item) : Bool :=
  (likeContains i.title query ||
    (match i.creator with
     | some c => likeContains c query
     | none => false)) &&
  (match category with
   | some cat => decide (i.category = cat)
   | none => true)

/-- `Database.search_items` (without the unused `loved_only` flag): rows
whose title or creator contains the query case-insensitively, filtered
by category when one is given. -/
def search_items (store : Store) (query : Str) (category : Option Category) : List Item :=
  store.items.filter (searchPred query category)

/-- `Database.get_items_by_category` (without the unused `loved_only`
flag). -/
def get_items_by_category (store : Store) (cat : Category) : List Item :=
  store.items.filter (fun i => decide (i.category = cat))

/-- The store's item count for a category. -/
def itemCount (store : Store) (cat : Category) : Nat :=
  (get_items_by_category store cat).length

/-! ## Import reconciler (`discovery/importers/base.py`) -/

structure ImportResult where
  itemsAdded : Nat
  itemsUpdated : Nat
  errors : List Str
deriving DecidableEq, Repr

/-- `BaseImporter._is_strict_title_match`: strict title tier plus
creator matching at threshold 90, escalated to 100 when the two
normalized titles agree after sequel-number stripping. -/
def is_strict_title_match (candidate target : Item) : Bool :=
  if candidate.title.isEmpty || target.title.isEmpty then false
  else if !titles_match_strict (some candidate.title) (some target.title) 92 then false
  else
    let normCand := normalize_title candidate.title true
    let normTarget := normalize_title target.title true
    let creatorThreshold : Nat :=
      if strip_sequel_numbers normCand = strip_sequel_numbers normTarget then 100 else 90
    creators_match candidate.creator target.creator creatorThreshold

/-- `BaseImporter._find_duplicate`: a full-title substring query
filtered by the lenient title tier plus creator match, then a
first-20-characters query filtered by normalized-title equality plus
creator match, then — only when both queries returned no rows at all and
the category holds at most 5000 items — a linear scan with the strict
tier. -/
def find_duplicate (store : Store) (item : Item) : Option Item :=
  let matchesFound := search_items store item.title (some item.category)
  match matchesFound.find? (fun m =>
      titles_match (some m.title) (some item.title) 85 &&
      creators_match m.creator item.creator 80) with
  | some m => some m
  | none =>
    let normalizedTitle := normalize_title item.title true
    let allMatches := search_items store (item.title.take 20) (some item.category)
    match allMatches.find? (fun m =>
        decide (normalize_title m.title true = normalizedTitle) &&
        creators_match m.creator item.creator 80) with
    | some m => some m
    | none =>
      if matchesFound.isEmpty && allMatches.isEmpty then
        let candidates := get_items_by_category store item.category
        if candidates.length ≤ 5000 then
          candidates.find? (fun m => is_strict_title_match m item)
        else none
      else none

def failParseMsg (e : Str) : Str := "Failed to parse file: ".data ++ e

def failImportMsg (title e : Str) : Str :=
  "Failed to import '".data ++ title ++ "': ".data ++ e

/-- The body of the per-candidate branch of
`BaseImporter.import_from_file`, up to the `post_import_item` hook:
source-identity lookup (overwriting the incoming item's id and
created_at with the stored ones and upserting both rows), else duplicate
search (upserting only the source link onto the matched item), else
creation of item and link.  Returns the new store, the item and link as
the hook receives them, and whether the candidate counted as updated
(`true`) or added (`false`). -/
def process_candidate (store : Store) (item : Item) (link : ItemSource) :
    Store × Item × ItemSource × Bool :=
  match find_item_by_source store link.source link.sourceId with
  | some existing =>
    let item' := {item with id := existing.id, createdAt := existing.createdAt}
    let link' := {link with itemId := existing.id}
    (upsert_item_source (upsert_item store item') link', item', link', true)
  | none =>
    match find_duplicate store item with
    | some dedup =>
      let link' := {link with itemId := dedup.id}
      (upsert_item_source store link', item, link', true)
    | none =>
      let link' := {link with itemId := item.id}
      (upsert_item_source (upsert_item store item) link', item, link', false)

/-- One iteration of the import loop: process the candidate, bump the
corresponding counter, then run the `post_import_item` hook; an
exception from the hook is caught and recorded as a per-item error
string (the store mutations already performed are kept, as in the
source, where each statement commits). -/
def import_step (hook : Item → ItemSource → Except Str Unit)
    (acc : Store × ImportResult) (c : Item × ItemSource) : Store × ImportResult :=
  let store := acc.1
  let res := acc.2
  let (store', item', link', updated) := process_candidate store c.1 c.2
  let res' :=
    if updated then {res with itemsUpdated := res.itemsUpdated + 1}
    else {res with itemsAdded := res.itemsAdded + 1}
  match hook item' link' with
  | .ok _ => (store', res')
  | .error e => (store', {res' with errors := res'.errors ++ [failImportMsg item'.title e]})

/-- The loop of `BaseImporter.import_from_file` over the parsed
candidates. -/
def import_parsed (hook : Item → ItemSource → Except Str Unit)
    (store : Store) (cands : List (Item × ItemSource)) : Store × ImportResult :=
  cands.foldl (import_step hook) (store, ⟨0, 0, []⟩)

/-- `BaseImporter.import_from_file`: a parse failure short-circuits with
one error and no store mutation; otherwise the candidates are processed
in order. -/
def import_from_file (hook : Item → ItemSource → Except Str Unit)
    (store : Store) (parsed : Except Str (List (Item × ItemSource))) :
    Store × ImportResult :=
  match parsed with
  | .error e => (store, ⟨0, 0, [failParseMsg e]⟩)
  | .ok cands => import_parsed hook store cands

/-- The default `post_import_item` hook of `BaseImporter`, which does
nothing and never raises. -/
def defaultHook : Item → ItemSource → Except Str Unit := fun _ _ => .ok ()

/-! ## Spec-side definitions used to compare the code with the spec's
words -/

/-- Modelled from the spec's words (section 4.5 step 2): the claimed
retry query of the cross-source duplicate search, "a shortened prefix of
the title (first word, or first 5 characters if no space)". -/
def firstWordQuery (title : Str) : Str :=
  if title.any (fun c => c = ' ') then (pySplitWs title).headD []
  else title.take 5

/-- Whether a string begins with one of the article tokens of
`normalize_title`. -/
def startsWithArticle (s : Str) : Bool :=
  theTok.isPrefixOf s || aTok.isPrefixOf s || anTok.isPrefixOf s

/-- A game item named "z"; 5001 of these populate the large-category
store of the fallback-ceiling witness. -/
def bigGameItem (n : Nat) : Item := ⟨n, Category.game, "z".data, none, [], 0, 0⟩

/-- A store whose game category holds 5001 items, above the fallback
ceiling. -/
def bigGameStore : Store := ⟨(List.range 5001).map bigGameItem, []⟩

/-- Stored item of the C5 counterexample: its title contains the first
20 characters of the candidate title but not the whole of it. -/
def dupRetryStoredItem : Item :=
  ⟨1, Category.book, "Alpha Beta Gamma Del".data, some "Smith".data, [], 0, 0⟩

def dupRetryStore : Store := ⟨[dupRetryStoredItem], []⟩

/-- Candidate of the C5 counterexample. -/
def dupRetryCandidate : Item :=
  ⟨2, Category.book, "Alpha Beta Gamma Delta".data, some "Smith".data, [], 1, 1⟩

/-- Stored item of the C5 witness: punctuation makes its raw title
differ from the candidate's while the normalized titles coincide, and
only the 20-character prefix of the candidate title occurs in it. -/
def dupSecondPassItem : Item :=
  ⟨1, Category.book, "Alpha Beta Gamma Del-ta".data, some "X".data, [], 0, 0⟩

def dupSecondPassStore : Store := ⟨[dupSecondPassItem], []⟩

/-- Candidate of the C5 witness. -/
def dupSecondPassCand : Item :=
  ⟨2, Category.book, "Alpha Beta Gamma Delta".data, some "X".data, [], 1, 1⟩

/-- Stored item of the C7 witness, already linked from spotify. -/
def frameStoreItem : Item := ⟨7, Category.music, "Old".data, some "oc".data, [], 5, 5⟩

def frameStore : Store :=
  ⟨[frameStoreItem], [⟨7, Source.spotify, "sid7".data, none, [], 5⟩]⟩

/-- Incoming candidate of the C7 witness, re-reporting source id "sid7". -/
def frameCand : Item := ⟨99, Category.music, "New".data, some "nc".data, [], 50, 50⟩

def frameLink : ItemSource := ⟨99, Source.spotify, "sid7".data, some true, [], 50⟩

/-- Stored item of the C7 duplicate-path witness (same title and creator
as the candidate, no source link). -/
def frameDupItem : Item := ⟨7, Category.music, "New".data, some "nc".data, [], 5, 5⟩

def frameStore2 : Store := ⟨[frameDupItem], []⟩

def frameCand2 : Item := ⟨99, Category.music, "New".data, some "nc".data, [], 50, 50⟩

def frameLink2 : ItemSource := ⟨99, Source.steam, "zz".data, none, [], 50⟩

/-- A `post_import_item` hook that always raises, used by the C6
witness. -/
def boomHook : Item → ItemSource → Except Str Unit :=
  fun _ _ => Except.error "boom".data

def errItemA : Item := ⟨11, Category.book, "B1".data, none, [], 1, 1⟩

def errLinkA : ItemSource := ⟨11, Source.goodreads, "g1".data, none, [], 1⟩

def errItemB : Item := ⟨12, Category.book, "B2".data, none, [], 2, 2⟩

def errLinkB : ItemSource := ⟨12, Source.goodreads, "g2".data, none, [], 2⟩

/-- The part of an item row read by the source-identity lookup and the
per-category count: id and category.  The source-identity path of the
importer's loop preserves it for every row. -/
def itemKey (i : Item) : Nat × Category := (i.id, i.category)

/-- The part of an `item_sources` row read by the source-identity
lookup: item id, source, and source id.  The conflict branch of
`upsert_item_source` does not touch any of the three. -/
def linkKey (l : ItemSource) : Nat × Source × Str := (l.itemId, l.source, l.sourceId)

/-- Initial store of the C1 counterexample: one game whose raw title
"Q-q-q-q-q" does not contain "qqqqq" but normalizes to it, already
linked from steam under source id "y". -/
def c1Store0 : Store :=
  ⟨[⟨1, Category.game, "Q-q-q-q-q".data, some "alice bob".data, [], 0, 0⟩],
   [⟨1, Source.steam, "y".data, none, [], 0⟩]⟩

/-- Batch of the C1 counterexample.  The first candidate dedups onto the
stored item through the fallback scan, but the link upsert conflicts
with the existing (item 1, steam) row and keeps source id "y", so the
candidate stays unresolvable by source identity.  The second candidate
is added; its title "Zqqqqqz" contains "qqqqq", so on the second run it
pollutes the first candidate's substring queries, the fallback scan is
gated off, and the first candidate is added as a new item. -/
def c1Batch : List (Item × ItemSource) :=
  [(⟨102, Category.game, "Qqqqq".data, some "alice bob".data, [], 10, 10⟩,
    ⟨102, Source.steam, "x".data, none, [], 10⟩),
   (⟨103, Category.game, "Zqqqqqz".data, some "dave".data, [], 11, 11⟩,
    ⟨103, Source.steam, "z".data, none, [], 11⟩)]

def idemItem : Item := ⟨21, Category.music, "Song".data, some "Artist".data, [], 3, 3⟩

def idemLink : ItemSource := ⟨21, Source.spotify, "s21".data, none, [], 3⟩

section SanityChecks

example : normalize_title "The Matrix".data true = "matrix".data := by decide
example : normalize_title "an the cat".data true = "the cat".data := by decide
example : strip_sequel_numbers "Mass Effect 2".data = "Mass Effect".data := by decide
example : strip_sequel_numbers "Mass Effect II".data = "Mass Effect".data := by decide
example : strip_sequel_numbers "Mass Effect".data = "Mass Effect".data := by decide
example :
    normalize_title "Dark Souls - Deluxe Edition".data true = "dark souls".data := by
  decide
example :
    normalize_title "Abbey Road (Remastered)".data true = "abbey road".data := by
  decide
example :
    titles_match (some "Dark Souls".data) (some "Dark Souls III".data) 85 = true := by
  decide
example : titles_match (some "A".data) (some "A Song".data) 85 = false := by decide
example : titles_match (some "abc".data) (some "xyz".data) 85 = false := by decide
example : creators_match none (some "x".data) 80 = true := by decide
example :
    creators_match (some "Jane Smith".data) (some "Bob Smith".data) 80 = true := by
  decide
example :
    creators_match (some "alice bob".data) (some "dave".data) 80 = false := by
  decide

end SanityChecks

/-! ## List helper lemmas -/

theorem joinWords_nil : joinWords [] = [] := rfl

theorem joinWords_single (w : Str) : joinWords [w] = w := rfl

theorem joinWords_cons2 (w r : Str) (rs : List Str) :
    joinWords (w :: r :: rs) = w ++ ' ' :: joinWords (r :: rs) := rfl

theorem takeWhile_append_of_all {α} (p : α → Bool) {l : List α} (r : List α)
    (h : ∀ a ∈ l, p a = true) : (l ++ r).takeWhile p = l ++ r.takeWhile p := by
  induction l with
  | nil => simp
  | cons c t ih =>
    have hc := h c (by simp)
    simp only [List.cons_append, List.takeWhile_cons, hc, if_true]
    rw [ih (fun a ha => h a (by simp [ha]))]

theorem dropWhile_append_of_all {α} (p : α → Bool) {l : List α} (r : List α)
    (h : ∀ a ∈ l, p a = true) : (l ++ r).dropWhile p = r.dropWhile p := by
  induction l with
  | nil => simp
  | cons c t ih =>
    have hc := h c (by simp)
    simp only [List.cons_append, List.dropWhile_cons, hc, if_true]
    exact ih (fun a ha => h a (by simp [ha]))

theorem dropWhile_append_of_exists {α} (p : α → Bool) {l : List α} (r : List α)
    (h : ∃ a ∈ l, p a = false) : (l ++ r).dropWhile p = l.dropWhile p ++ r := by
  induction l with
  | nil => rcases h with ⟨a, ha, _⟩; simp at ha
  | cons c t ih =>
    by_cases hc : p c = true
    · simp only [List.cons_append, List.dropWhile_cons, hc, if_true]
      apply ih
      rcases h with ⟨a, ha, hpa⟩
      rcases List.mem_cons.1 ha with rfl | ha'
      · rw [hc] at hpa; cases hpa
      · exact ⟨a, ha', hpa⟩
    · rw [Bool.not_eq_true] at hc
      simp [List.dropWhile_cons, hc]

theorem getLast?_suffix {α} {t l : List α} (h : t <:+ l) (ht : t ≠ []) :
    t.getLast? = l.getLast? := by
  rcases h with ⟨u, rfl⟩
  exact (List.getLast?_append_of_ne_nil u ht).symm

theorem dropSuffixAt_cons (p : Str → Bool) (c : Char) (t : Str) :
    dropSuffixAt p (c :: t) = if p (c :: t) then [] else c :: dropSuffixAt p t := rfl

/-! ## Lemmas about the end-anchored substitution `dropSuffixAt` -/

theorem dropSuffixAt_eq_self {p : Str → Bool} {s : Str}
    (h : ∀ u, u <:+ s → u ≠ [] → p u = false) : dropSuffixAt p s = s := by
  induction s with
  | nil => rfl
  | cons c t ih =>
    have h0 : p (c :: t) = false := h (c :: t) ⟨[], rfl⟩ (by simp)
    simp only [dropSuffixAt, h0, Bool.false_eq_true, if_false, List.cons.injEq, true_and]
    exact ih (fun u hu hne => h u (hu.trans (List.suffix_cons c t)) hne)

theorem dropSuffixAt_append {p : Str → Bool} {t u : Str}
    (h : ∀ t2, t2 <:+ t → t2 ≠ [] → p (t2 ++ u) = false) :
    dropSuffixAt p (t ++ u) = t ++ dropSuffixAt p u := by
  induction t with
  | nil => simp
  | cons c t' ih =>
    have h0 : p (c :: (t' ++ u)) = false := by
      simpa using h (c :: t') ⟨[], rfl⟩ (by simp)
    rw [List.cons_append, dropSuffixAt_cons, h0]
    simp only [Bool.false_eq_true, if_false, List.cons_append, List.cons.injEq, true_and]
    exact ih (fun t2 ht2 hne => h t2 (ht2.trans (List.suffix_cons c t')) hne)

/-! ## Character-class lemmas -/

theorem space_char_cases {c : Char} (h : isSpaceChar c = true) :
    c = ' ' ∨ c = '\t' ∨ c = '\n' ∨ c = '\r' ∨ c = '\x0b' ∨ c = '\x0c' := by
  simp [isSpaceChar, Bool.or_eq_true, decide_eq_true_iff] at h
  tauto

theorem isDigit_not_space {c : Char} (h : c.isDigit = true) : isSpaceChar c = false := by
  by_contra hs
  rw [Bool.not_eq_false] at hs
  rcases space_char_cases hs with rfl | rfl | rfl | rfl | rfl | rfl <;>
    exact absurd h (by decide)

theorem isRoman_not_space {c : Char} (h : isRomanChar c = true) : isSpaceChar c = false := by
  by_contra hs
  rw [Bool.not_eq_false] at hs
  rcases space_char_cases hs with rfl | rfl | rfl | rfl | rfl | rfl <;>
    exact absurd h (by decide)

theorem dropWhile_eq_self_of_head {l : Str}
    (h : ∀ c, l.head? = some c → isSpaceChar c = false) :
    l.dropWhile isSpaceChar = l := by
  cases l with
  | nil => rfl
  | cons c t => exact List.dropWhile_cons_of_neg (by simp [h c rfl])

theorem pyStrip_eq_self {t : Str}
    (hh : ∀ c, t.head? = some c → isSpaceChar c = false)
    (hl : ∀ c, t.getLast? = some c → isSpaceChar c = false) :
    pyStrip t = t := by
  rw [pyStrip, dropWhile_eq_self_of_head hh, dropWhile_eq_self_of_head (by
    intro c hc
    rw [List.head?_reverse] at hc
    exact hl c hc), List.reverse_reverse]

theorem dropSuffixAt_isPrefix (p : Str → Bool) (s : Str) :
    dropSuffixAt p s <+: s := by
  induction s with
  | nil => simp [dropSuffixAt]
  | cons c t ih =>
    rw [dropSuffixAt_cons]
    by_cases h : p (c :: t) = true
    · simp [h]
    · rw [Bool.not_eq_true] at h
      rcases ih with ⟨k, hk⟩
      exact ⟨k, by simp [h, hk]⟩

/-! ## Behaviour of the two trailing-token substitutions of
`strip_sequel_numbers` -/

theorem suffixRoman_append_false {t2 u : Str} (ht2 : t2 ≠ [])
    (hns : ∃ y ∈ t2, isSpaceChar y = false) (hu : ' ' ∈ u) :
    suffixRoman (t2 ++ u) = false := by
  rcases t2 with _ | ⟨c, t2'⟩
  · exact absurd rfl ht2
  have hsp : ' ' ∈ ((c :: t2') ++ u).dropWhile isSpaceChar := by
    rw [dropWhile_append_of_exists _ _ hns]
    exact List.mem_append_right _ hu
  have hall : (((c :: t2') ++ u).dropWhile isSpaceChar).all isRomanChar = false :=
    List.all_eq_false.2 ⟨' ', hsp, by decide⟩
  simp only [List.cons_append] at hall ⊢
  simp [suffixRoman, hall]

theorem suffixDigits_append_false {t2 u : Str} (ht2 : t2 ≠ [])
    (hns : ∃ y ∈ t2, isSpaceChar y = false) (hu : ' ' ∈ u) :
    suffixDigits (t2 ++ u) = false := by
  rcases t2 with _ | ⟨c, t2'⟩
  · exact absurd rfl ht2
  have hsp : ' ' ∈ ((c :: t2') ++ u).dropWhile isSpaceChar := by
    rw [dropWhile_append_of_exists _ _ hns]
    exact List.mem_append_right _ hu
  have hall : (((c :: t2') ++ u).dropWhile isSpaceChar).all Char.isDigit = false :=
    List.all_eq_false.2 ⟨' ', hsp, by decide⟩
  simp only [List.cons_append] at hall ⊢
  simp [suffixDigits, hall]

theorem suffixRoman_space {r : Str} (hr : r ≠ [])
    (hall : ∀ c ∈ r, isRomanChar c = true) : suffixRoman (' ' :: r) = true := by
  have h1 : r.dropWhile isSpaceChar = r := dropWhile_eq_self_of_head (by
    intro c hc
    rcases r with _ | ⟨c0, r'⟩
    · cases hc
    · cases hc
      exact isRoman_not_space (hall c (by simp)))
  have hsp : isSpaceChar ' ' = true := by decide
  simp [suffixRoman, List.dropWhile_cons, hsp, h1]
  exact ⟨hr, hall⟩

theorem suffixDigits_space {r : Str} (hr : r ≠ [])
    (hall : ∀ c ∈ r, c.isDigit = true) : suffixDigits (' ' :: r) = true := by
  have h1 : r.dropWhile isSpaceChar = r := dropWhile_eq_self_of_head (by
    intro c hc
    rcases r with _ | ⟨c0, r'⟩
    · cases hc
    · cases hc
      exact isDigit_not_space (hall c (by simp)))
  have hsp : isSpaceChar ' ' = true := by decide
  simp [suffixDigits, List.dropWhile_cons, hsp, h1]
  exact ⟨hr, hall⟩

/-! ## Canonical shape of `normalize_title` output -/

theorem toLower_eq (c : Char) :
    Char.toLower c =
      if c.toNat ≥ 65 ∧ c.toNat ≤ 90 then Char.ofNat (c.toNat + 32) else c := rfl

theorem toNat_ofNat_valid {n : Nat} (hv : n.isValidChar) :
    (Char.ofNat n).toNat = n := by
  rw [Char.ofNat, dif_pos hv]
  rfl

theorem toLower_idem (c : Char) : Char.toLower (Char.toLower c) = Char.toLower c := by
  by_cases h : c.toNat ≥ 65 ∧ c.toNat ≤ 90
  · have hv : (c.toNat + 32).isValidChar := Or.inl (by omega)
    have h1 : Char.toLower c = Char.ofNat (c.toNat + 32) := by
      rw [toLower_eq, if_pos h]
    rw [h1, toLower_eq, if_neg (by rw [toNat_ofNat_valid hv]; omega)]
  · have h1 : Char.toLower c = c := by rw [toLower_eq, if_neg h]
    rw [h1, h1]

theorem mem_pyLower_fixed {c : Char} {s : Str} (h : c ∈ pyLower s) :
    Char.toLower c = c := by
  rw [pyLower, List.mem_map] at h
  obtain ⟨d, -, rfl⟩ := h
  exact toLower_idem d

theorem pyLower_eq_self {y : Str} (h : ∀ c ∈ y, Char.toLower c = c) :
    pyLower y = y := by
  induction y with
  | nil => rfl
  | cons c t ih =>
    rw [pyLower, List.map_cons, h c (by simp)]
    exact congrArg _ (ih (fun d hd => h d (by simp [hd])))

theorem stripOneArticle_isSuffix (s p : Str) : stripOneArticle s p <:+ s := by
  rw [stripOneArticle]
  split
  · exact List.drop_suffix _ _
  · exact List.suffix_refl s

theorem stripArticles_isSuffix (s : Str) : stripArticles s <:+ s := by
  have e : stripArticles s =
      stripOneArticle (stripOneArticle (stripOneArticle s theTok) aTok) anTok := rfl
  rw [e]
  exact (stripOneArticle_isSuffix _ _).trans
    ((stripOneArticle_isSuffix _ _).trans (stripOneArticle_isSuffix _ _))

theorem stripOneArticle_eq_self {s p : Str} (h : p.isPrefixOf s = false) :
    stripOneArticle s p = s := by
  simp [stripOneArticle, h]

theorem editionSubs_subset (x : Str) : editionSubs x ⊆ x := by
  rw [editionSubs]
  exact ((((dropSuffixAt_isPrefix _ _).subset).trans
    ((dropSuffixAt_isPrefix _ _).subset)).trans
    (((dropSuffixAt_isPrefix _ _).subset).trans
      (((dropSuffixAt_isPrefix _ _).subset).trans
        ((dropSuffixAt_isPrefix _ _).subset))))

theorem suffixParenKw_false {u : Str} (h : '(' ∉ u) : suffixParenKw u = false := by
  rw [suffixParenKw]
  cases ha : u.dropWhile isSpaceChar with
  | nil => rfl
  | cons c r =>
    have hcu : c ∈ u := (List.dropWhile_sublist _).subset (by rw [ha]; simp)
    have hc : (decide (c = '(')) = false := by
      simp only [decide_eq_false_iff_not]
      rintro rfl
      exact h hcu
    simp [hc]

theorem suffixDashKw_false {u : Str} (h : '-' ∉ u) : suffixDashKw u = false := by
  rw [suffixDashKw]
  cases ha : u.dropWhile isSpaceChar with
  | nil => rfl
  | cons c r =>
    have hcu : c ∈ u := (List.dropWhile_sublist _).subset (by rw [ha]; simp)
    have hc : (decide (c = '-')) = false := by
      simp only [decide_eq_false_iff_not]
      rintro rfl
      exact h hcu
    simp [hc]

theorem suffixColonKw_false {u : Str} (h : ':' ∉ u) : suffixColonKw u = false := by
  rw [suffixColonKw]
  cases ha : u.dropWhile isSpaceChar with
  | nil => rfl
  | cons c r =>
    have hcu : c ∈ u := (List.dropWhile_sublist _).subset (by rw [ha]; simp)
    have hc : (decide (c = ':')) = false := by
      simp only [decide_eq_false_iff_not]
      rintro rfl
      exact h hcu
    simp [hc]

theorem suffixLitParen_false (lit u : Str) (hlit : lit.head? = some '(')
    (h : '(' ∉ u) : suffixLitParen lit u = false := by
  cases u with
  | nil => rfl
  | cons c t =>
    have hp : lit.isPrefixOf ((c :: t).dropWhile isSpaceChar) = false := by
      by_contra hb
      rw [Bool.not_eq_false, List.isPrefixOf_iff_prefix] at hb
      obtain ⟨k, hk⟩ := hb
      rcases lit with _ | ⟨l0, lit'⟩
      · cases hlit
      · cases hlit
        exact h ((List.dropWhile_sublist _).subset (by rw [← hk]; simp))
    show (isSpaceChar c &&
      (lit.isPrefixOf ((c :: t).dropWhile isSpaceChar) &&
        (((c :: t).dropWhile isSpaceChar).drop lit.length).all isSpaceChar)) = false
    rw [hp]
    simp

theorem editionSubs_eq_self {y : Str} (hp : '(' ∉ y) (hd : '-' ∉ y) (hc : ':' ∉ y) :
    editionSubs y = y := by
  have hmem : ∀ u : Str, u <:+ y → ∀ a : Char, a ∈ u → a ∈ y :=
    fun u hu a ha => hu.subset ha
  rw [editionSubs]
  rw [dropSuffixAt_eq_self (fun u hu _ => suffixParenKw_false
    (fun hx => hp (hmem u hu _ hx)))]
  rw [dropSuffixAt_eq_self (fun u hu _ => suffixDashKw_false
    (fun hx => hd (hmem u hu _ hx)))]
  rw [dropSuffixAt_eq_self (fun u hu _ => suffixColonKw_false
    (fun hx => hc (hmem u hu _ hx)))]
  rw [dropSuffixAt_eq_self (fun u hu _ => suffixLitParen_false remasteredLit u rfl
    (fun hx => hp (hmem u hu _ hx)))]
  rw [dropSuffixAt_eq_self (fun u hu _ => suffixLitParen_false deluxeLit u rfl
    (fun hx => hp (hmem u hu _ hx)))]

theorem splitWsAux_facts : ∀ (s cur : Str), (∀ c ∈ cur, isSpaceChar c = false) →
    ∀ w ∈ splitWsAux s cur,
      w ≠ [] ∧ ∀ c ∈ w, isSpaceChar c = false ∧ (c ∈ s ∨ c ∈ cur) := by
  intro s
  induction s with
  | nil =>
    intro cur hcur w hw
    rw [splitWsAux] at hw
    by_cases hc : cur.isEmpty = true
    · rw [if_pos hc] at hw
      cases hw
    · rw [if_neg hc] at hw
      rcases List.mem_singleton.1 hw with rfl
      refine ⟨by simpa [List.isEmpty_iff] using hc, fun c hcw => ?_⟩
      rw [List.mem_reverse] at hcw
      exact ⟨hcur c hcw, Or.inr hcw⟩
  | cons a t ih =>
    intro cur hcur w hw
    rw [splitWsAux] at hw
    by_cases hsp : isSpaceChar a = true
    · rw [if_pos hsp] at hw
      by_cases hc : cur.isEmpty = true
      · rw [if_pos hc] at hw
        obtain ⟨hne, hrest⟩ := ih [] (by simp) w hw
        exact ⟨hne, fun c hcw => ⟨(hrest c hcw).1, by
          rcases (hrest c hcw).2 with h | h
          · exact Or.inl (by simp [h])
          · cases h⟩⟩
      · rw [if_neg hc] at hw
        rcases List.mem_cons.1 hw with rfl | hw'
        · refine ⟨by simpa [List.isEmpty_iff] using hc, fun c hcw => ?_⟩
          rw [List.mem_reverse] at hcw
          exact ⟨hcur c hcw, Or.inr hcw⟩
        · obtain ⟨hne, hrest⟩ := ih [] (by simp) w hw'
          exact ⟨hne, fun c hcw => ⟨(hrest c hcw).1, by
            rcases (hrest c hcw).2 with h | h
            · exact Or.inl (by simp [h])
            · cases h⟩⟩
    · rw [if_neg hsp] at hw
      rw [Bool.not_eq_true] at hsp
      obtain ⟨hne, hrest⟩ := ih (a :: cur)
        (by intro c hc
            rcases List.mem_cons.1 hc with rfl | hc'
            · exact hsp
            · exact hcur c hc') w hw
      refine ⟨hne, fun c hcw => ⟨(hrest c hcw).1, ?_⟩⟩
      rcases (hrest c hcw).2 with h | h
      · exact Or.inl (by simp [h])
      · rcases List.mem_cons.1 h with rfl | h'
        · exact Or.inl (by simp)
        · exact Or.inr h'

theorem splitWsAux_word : ∀ (w s cur : Str), (∀ c ∈ w, isSpaceChar c = false) →
    splitWsAux (w ++ s) cur = splitWsAux s (w.reverse ++ cur) := by
  intro w
  induction w with
  | nil => intro s cur _; simp
  | cons c w' ih =>
    intro s cur hw
    rw [List.cons_append, splitWsAux, if_neg (by simp [hw c (by simp)]),
      ih s (c :: cur) (fun d hd => hw d (by simp [hd]))]
    simp

theorem pySplitWs_joinWords : ∀ ws : List Str,
    (∀ w ∈ ws, w ≠ [] ∧ ∀ c ∈ w, isSpaceChar c = false) →
    pySplitWs (joinWords ws) = ws := by
  intro ws
  induction ws with
  | nil => intro _; rfl
  | cons w ws' ih =>
    intro h
    obtain ⟨hw, hwc⟩ := h w (by simp)
    cases ws' with
    | nil =>
      show splitWsAux (joinWords [w]) [] = [w]
      rw [joinWords_single, show w = w ++ [] by simp, splitWsAux_word w [] [] hwc]
      simp [splitWsAux, List.isEmpty_eq_false, hw]
    | cons r rs =>
      show splitWsAux (joinWords (w :: r :: rs)) [] = w :: r :: rs
      rw [joinWords_cons2, splitWsAux_word w (' ' :: joinWords (r :: rs)) [] hwc,
        splitWsAux, if_pos (by decide), if_neg (by simp [List.isEmpty_iff, hw])]
      rw [List.append_nil, List.reverse_reverse]
      exact congrArg _ (ih (fun x hx => h x (by simp [hx])))

theorem mem_joinWords {c : Char} : ∀ {ws : List Str}, c ∈ joinWords ws →
    c = ' ' ∨ ∃ w ∈ ws, c ∈ w := by
  intro ws
  induction ws with
  | nil => intro h; cases h
  | cons w ws' ih =>
    intro h
    cases ws' with
    | nil => exact Or.inr ⟨w, by simp, h⟩
    | cons r rs =>
      rw [joinWords_cons2] at h
      rcases List.mem_append.1 h with h1 | h2
      · exact Or.inr ⟨w, by simp, h1⟩
      · rcases List.mem_cons.1 h2 with rfl | h3
        · exact Or.inl rfl
        · rcases ih h3 with h4 | ⟨w', hw', hcw'⟩
          · exact Or.inl h4
          · exact Or.inr ⟨w', by simp [hw'], hcw'⟩

/-- Every `normalize_title` output is a single-space-separated join of
nonempty words whose characters are word characters, are not whitespace,
and are fixed by lowercasing. -/
theorem normalize_title_shape (s : Str) : ∃ ws : List Str,
    normalize_title s true = joinWords ws ∧
    ∀ w ∈ ws, w ≠ [] ∧
      ∀ c ∈ w, isSpaceChar c = false ∧ isWordChar c = true ∧ Char.toLower c = c := by
  by_cases hs : s.isEmpty = true
  · exact ⟨[], by simp [normalize_title, hs, joinWords_nil], by simp⟩
  · refine ⟨pySplitWs (((editionSubs (stripArticles (pyLower s))).filter
      (fun c => isWordChar c || isSpaceChar c))), ?_, ?_⟩
    · simp only [normalize_title, hs, Bool.false_eq_true, if_false, if_pos]
      rfl
    · intro w hw
      obtain ⟨hne, hrest⟩ := splitWsAux_facts _ [] (by simp) w hw
      refine ⟨hne, fun c hcw => ?_⟩
      obtain ⟨hnsp, hmem⟩ := hrest c hcw
      have hcm : c ∈ (editionSubs (stripArticles (pyLower s))).filter
          (fun c => isWordChar c || isSpaceChar c) := by
        rcases hmem with h | h
        · exact h
        · cases h
      obtain ⟨hin, hpred⟩ := List.mem_filter.1 hcm
      have hword : isWordChar c = true := by
        rcases Bool.or_eq_true_iff.1 hpred with h | h
        · exact h
        · rw [h] at hnsp; cases hnsp
      have hlow : Char.toLower c = c :=
        mem_pyLower_fixed ((stripArticles_isSuffix _).subset (editionSubs_subset _ hin))
      exact ⟨hnsp, hword, hlow⟩

theorem stripOne_append (p x : Str) : stripOneArticle (p ++ x) p = x := by
  have hc : p.isPrefixOf (p ++ x) = true :=
    List.isPrefixOf_iff_prefix.2 (List.prefix_append p x)
  simp only [stripOneArticle, hc, if_true, List.drop_left]

/-! ## Bridges between the executable comparisons and their
mathematical statements -/

theorem fuzzRatioGe_iff (a b : Str) (t : Nat) :
    fuzzRatioGe a b t = true ↔ (t : ℚ) ≤ fuzzRatio a b := by
  rw [fuzzRatioGe, fuzzRatio]
  by_cases h : a.length + b.length = 0
  · rw [if_pos h, if_pos h, decide_eq_true_iff]
    constructor
    · intro h'; exact_mod_cast h'
    · intro h'; exact_mod_cast h'
  · rw [if_neg h, if_neg h, decide_eq_true_iff]
    have hpos : (0 : ℚ) < (a.length : ℚ) + (b.length : ℚ) := by
      have : 0 < a.length + b.length := Nat.pos_of_ne_zero h
      exact_mod_cast this
    rw [le_div_iff₀ hpos]
    constructor
    · intro h'; exact_mod_cast h'
    · intro h'; exact_mod_cast h'

theorem containsSub_infix_iff (n h : Str) : containsSub n h = true ↔ n <:+: h := by
  induction h with
  | nil => simp [containsSub, List.isEmpty_iff]
  | cons c t ih =>
    rw [containsSub, Bool.or_eq_true, List.isPrefixOf_iff_prefix, ih,
      List.infix_cons_iff]

theorem lastTokensEqual_iff (p1 p2 : List Str) :
    lastTokensEqual p1 p2 = true ↔
      ∃ w1 w2, p1.getLast? = some w1 ∧ p2.getLast? = some w2 ∧ w1 = w2 := by
  rw [lastTokensEqual]
  cases h1 : p1.getLast? <;> cases h2 : p2.getLast? <;> simp [h1, h2]

theorem creators_chain_iff (c1 c2 : Str) (t : Nat) :
    (if c1 = c2 then true
     else if containsSub c1 c2 || containsSub c2 c1 then true
     else if lastTokensEqual (pySplitWs c1) (pySplitWs c2) then true
     else fuzzRatioGe c1 c2 t) = true ↔
    (c1 = c2 ∨ c1 <:+: c2 ∨ c2 <:+: c1 ∨
      (∃ w1 w2, (pySplitWs c1).getLast? = some w1 ∧
        (pySplitWs c2).getLast? = some w2 ∧ w1 = w2) ∨
      ((t : ℚ) ≤ fuzzRatio c1 c2)) := by
  by_cases h1 : c1 = c2
  · simp [h1]
  · rw [if_neg h1]
    by_cases h2 : (containsSub c1 c2 || containsSub c2 c1) = true
    · rw [if_pos h2]
      simp only [true_iff]
      rcases Bool.or_eq_true_iff.1 h2 with h2a | h2b
      · exact Or.inr (Or.inl ((containsSub_infix_iff _ _).1 h2a))
      · exact Or.inr (Or.inr (Or.inl ((containsSub_infix_iff _ _).1 h2b)))
    · rw [if_neg h2]
      have hn2 : ¬(c1 <:+: c2) ∧ ¬(c2 <:+: c1) := by
        constructor
        · intro hi
          exact h2 (Bool.or_eq_true_iff.2 (Or.inl ((containsSub_infix_iff _ _).2 hi)))
        · intro hi
          exact h2 (Bool.or_eq_true_iff.2 (Or.inr ((containsSub_infix_iff _ _).2 hi)))
      by_cases h3 : lastTokensEqual (pySplitWs c1) (pySplitWs c2) = true
      · rw [if_pos h3]
        simp only [true_iff]
        exact Or.inr (Or.inr (Or.inr (Or.inl ((lastTokensEqual_iff _ _).1 h3))))
      · rw [if_neg h3, fuzzRatioGe_iff]
        constructor
        · intro h5
          exact Or.inr (Or.inr (Or.inr (Or.inr h5)))
        · intro hr
          rcases hr with h | h | h | h | h
          · exact absurd h h1
          · exact absurd h hn2.1
          · exact absurd h hn2.2
          · exact absurd ((lastTokensEqual_iff _ _).2 h) h3
          · exact h

/-! ## Accumulation behaviour of the import loop -/

theorem import_step_shift (hook : Item → ItemSource → Except Str Unit)
    (store : Store) (a u : Nat) (es : List Str) (c : Item × ItemSource) :
    import_step hook (store, ⟨a, u, es⟩) c =
      ((import_step hook (store, ⟨0, 0, []⟩) c).1,
       ⟨a + (import_step hook (store, ⟨0, 0, []⟩) c).2.itemsAdded,
        u + (import_step hook (store, ⟨0, 0, []⟩) c).2.itemsUpdated,
        es ++ (import_step hook (store, ⟨0, 0, []⟩) c).2.errors⟩) := by
  rcases hpc : process_candidate store c.1 c.2 with ⟨S1, item', link', updated⟩
  cases updated <;> cases hk : hook item' link' <;>
    simp [import_step, hpc, hk]

theorem import_parsed_accum (hook : Item → ItemSource → Except Str Unit) :
    ∀ (cands : List (Item × ItemSource)) (store : Store) (a u : Nat) (es : List Str),
    cands.foldl (import_step hook) (store, ⟨a, u, es⟩) =
      ((cands.foldl (import_step hook) (store, ⟨0, 0, []⟩)).1,
       ⟨a + (cands.foldl (import_step hook) (store, ⟨0, 0, []⟩)).2.itemsAdded,
        u + (cands.foldl (import_step hook) (store, ⟨0, 0, []⟩)).2.itemsUpdated,
        es ++ (cands.foldl (import_step hook) (store, ⟨0, 0, []⟩)).2.errors⟩) := by
  intro cands
  induction cands with
  | nil => intro store a u es; simp
  | cons c rest ih =>
    intro store a u es
    rw [List.foldl_cons, List.foldl_cons, import_step_shift]
    rcases hstep : import_step hook (store, ⟨0, 0, []⟩) c with ⟨S1, R1⟩
    rcases R1 with ⟨da, du, dE⟩
    simp only []
    have h1 := ih S1 (a + da) (u + du) (es ++ dE)
    have h2 := ih S1 da du dE
    rw [h1, h2]
    simp [Nat.add_assoc, List.append_assoc]

theorem process_candidate_title (store : Store) (item : Item) (link : ItemSource) :
    (process_candidate store item link).2.1.title = item.title := by
  rw [process_candidate]
  cases h : find_item_by_source store link.source link.sourceId with
  | some e => simp
  | none =>
    cases hd : find_duplicate store item with
    | some d => simp
    | none => simp

/-! ## The source-identity path preserves the lookup skeleton -/

theorem find?_map_congr {α β : Type} (f : α → β) (q : β → Bool) :
    ∀ (l1 l2 : List α), l1.map f = l2.map f →
    (l1.find? (fun x => q (f x))).map f = (l2.find? (fun x => q (f x))).map f := by
  intro l1
  induction l1 with
  | nil =>
    intro l2 h
    have h2 : l2 = [] := by simpa using h.symm
    subst h2
    rfl
  | cons a t ih =>
    intro l2 h
    cases l2 with
    | nil => simp at h
    | cons b t2 =>
      simp only [List.map_cons, List.cons.injEq] at h
      obtain ⟨h1, h2⟩ := h
      have hqb : q (f b) = q (f a) := by rw [h1]
      cases hq : q (f a)
      · rw [hq] at hqb
        simp only [List.find?_cons, hq, hqb]
        exact ih t2 h2
      · rw [hq] at hqb
        simp [List.find?_cons, hq, hqb, h1]

theorem find_item_by_source_isSome_congr (s1 s2 : Store) (src : Source) (sid : Str)
    (hi : s1.items.map itemKey = s2.items.map itemKey)
    (hs : s1.sources.map linkKey = s2.sources.map linkKey) :
    (find_item_by_source s1 src sid).isSome = (find_item_by_source s2 src sid).isSome := by
  rw [find_item_by_source, find_item_by_source]
  have hpe : (fun (l : ItemSource) => decide (l.source = src) && decide (l.sourceId = sid)) =
      (fun x => (fun k : Nat × Source × Str =>
        decide (k.2.1 = src) && decide (k.2.2 = sid)) (linkKey x)) := rfl
  rw [hpe]
  have hfind := find?_map_congr linkKey
    (fun k : Nat × Source × Str => decide (k.2.1 = src) && decide (k.2.2 = sid))
    s1.sources s2.sources hs
  cases h1 : s1.sources.find? (fun x => (fun k : Nat × Source × Str =>
      decide (k.2.1 = src) && decide (k.2.2 = sid)) (linkKey x)) with
  | none =>
    rw [h1] at hfind
    have h2 : s2.sources.find? (fun x => (fun k : Nat × Source × Str =>
        decide (k.2.1 = src) && decide (k.2.2 = sid)) (linkKey x)) = none :=
      Option.map_eq_none'.1 hfind.symm
    rw [h2]
  | some L1 =>
    rw [h1] at hfind
    obtain ⟨L2, h2, hL⟩ := Option.map_eq_some'.1 hfind.symm
    rw [h2]
    simp only []
    have hid : L2.itemId = L1.itemId := congrArg Prod.fst hL
    have hpe2 : ∀ n : Nat, (fun (i : Item) => decide (i.id = n)) =
        (fun x => (fun k : Nat × Category => decide (k.1 = n)) (itemKey x)) := fun _ => rfl
    rw [hid, hpe2 L1.itemId]
    have hfind2 := find?_map_congr itemKey
      (fun k : Nat × Category => decide (k.1 = L1.itemId)) s1.items s2.items hi
    simpa using congrArg Option.isSome hfind2

theorem itemCount_congr (s1 s2 : Store)
    (hi : s1.items.map itemKey = s2.items.map itemKey) :
    ∀ cat, itemCount s1 cat = itemCount s2 cat := by
  intro cat
  have e1 : ∀ (l : List Item), (l.filter (fun i => decide (i.category = cat))).length =
      (l.map itemKey).countP (fun k : Nat × Category => decide (k.2 = cat)) := by
    intro l
    rw [List.countP_map, ← List.countP_eq_length_filter]
    rfl
  rw [itemCount, itemCount, get_items_by_category, get_items_by_category, e1, e1, hi]

theorem import_step_resolved (store : Store) (res : ImportResult) (c : Item × ItemSource)
    (h : (find_item_by_source store c.2.source c.2.sourceId).isSome = true) :
    (import_step defaultHook (store, res) c).1.items.map itemKey =
      store.items.map itemKey ∧
    (import_step defaultHook (store, res) c).1.sources.map linkKey =
      store.sources.map linkKey ∧
    (import_step defaultHook (store, res) c).2 =
      {res with itemsUpdated := res.itemsUpdated + 1} := by
  obtain ⟨e, he⟩ := Option.isSome_iff_exists.1 h
  rw [find_item_by_source] at he
  cases hL : store.sources.find? (fun l =>
      decide (l.source = c.2.source) && decide (l.sourceId = c.2.sourceId)) with
  | none => rw [hL] at he; cases he
  | some L =>
    rw [hL] at he
    simp only [] at he
    have heMem : e ∈ store.items := List.mem_of_find?_eq_some he
    have heId : e.id = L.itemId := by simpa using List.find?_some he
    have hLmem : L ∈ store.sources := List.mem_of_find?_eq_some hL
    have hLp := List.find?_some hL
    rw [Bool.and_eq_true] at hLp
    have hLsrc : L.source = c.2.source := of_decide_eq_true hLp.1
    have hLsid : L.sourceId = c.2.sourceId := of_decide_eq_true hLp.2
    have hfind : find_item_by_source store c.2.source c.2.sourceId = some e := by
      rw [find_item_by_source, hL]
      exact he
    simp only [import_step, process_candidate, hfind, defaultHook]
    refine ⟨?_, ?_, rfl⟩
    · show (upsertItemRows store.items
        {c.1 with id := e.id, createdAt := e.createdAt}).map itemKey =
        store.items.map itemKey
      rw [upsertItemRows, if_pos (List.any_eq_true.2 ⟨e, heMem, by simp⟩)]
      rw [List.map_map]
      apply List.map_congr_left
      intro r _
      by_cases hr : r.id = e.id <;> simp [hr, itemKey]
    · show (upsertSourceRows store.sources {c.2 with itemId := e.id}).map linkKey =
        store.sources.map linkKey
      rw [upsertSourceRows, if_pos (List.any_eq_true.2 ⟨L, hLmem, by
        simp [heId.symm, hLsrc]⟩)]
      rw [List.map_map]
      apply List.map_congr_left
      intro r _
      by_cases hr : r.itemId = e.id ∧ r.source = c.2.source <;> simp [hr, linkKey]

theorem import_parsed_resolved (cands : List (Item × ItemSource)) :
    ∀ store : Store,
    (∀ c ∈ cands, (find_item_by_source store c.2.source c.2.sourceId).isSome = true) →
    (import_parsed defaultHook store cands).1.items.map itemKey =
      store.items.map itemKey ∧
    (import_parsed defaultHook store cands).1.sources.map linkKey =
      store.sources.map linkKey ∧
    (import_parsed defaultHook store cands).2.itemsAdded = 0 ∧
    (import_parsed defaultHook store cands).2.itemsUpdated = cands.length ∧
    (import_parsed defaultHook store cands).2.errors = [] := by
  induction cands with
  | nil => intro store _; exact ⟨rfl, rfl, rfl, rfl, rfl⟩
  | cons c rest ih =>
    intro store h
    have hc := h c (by simp)
    have hstep := import_step_resolved store ⟨0, 0, []⟩ c hc
    rcases hO : import_step defaultHook (store, ⟨0, 0, []⟩) c with ⟨S1, R1⟩
    rw [hO] at hstep
    simp only [] at hstep
    obtain ⟨hsk1, hsk2, hres⟩ := hstep
    have hrest : ∀ c' ∈ rest,
        (find_item_by_source S1 c'.2.source c'.2.sourceId).isSome = true := by
      intro c' hc'
      rw [find_item_by_source_isSome_congr S1 store c'.2.source c'.2.sourceId hsk1 hsk2]
      exact h c' (by simp [hc'])
    obtain ⟨ihs1, ihs2, ihadd, ihupd, iherr⟩ := ih S1 hrest
    have hunf : import_parsed defaultHook store (c :: rest) =
        List.foldl (import_step defaultHook) (S1, R1) rest := by
      rw [import_parsed, List.foldl_cons, hO]
    rw [hres] at hunf
    rw [import_parsed] at ihs1 ihs2 ihadd ihupd iherr
    rw [hunf, import_parsed_accum]
    simp only []
    refine ⟨ihs1.trans hsk1, ihs2.trans hsk2, by simpa using ihadd,
      by simp [ihupd, Nat.add_comm], by simp [iherr]⟩

/-! ## Claim theorems -/

/-- C4 counterexample: on "The A Team" the normalizer removes both the
leading "the" and the following article word "a", so the claim that
exactly one article token is stripped and a following article word is
retained (which would give "a team") fails. -/
theorem normalize_title_strips_multiple_articles :
    normalize_title "The A Team".data true = "team".data ∧
      "team".data ≠ "a team".data :=
  ⟨by decide, by decide⟩

/-- C4 (amended): `normalize_title` strips leading articles by a single
pass over the tokens "the ", "a ", "an " in that fixed order, removing
each one that the current string starts with — so up to three leading
article tokens can be removed, one occurrence of each, and a title
beginning with "the a " loses both tokens. -/
theorem normalize_title_article_pass :
    (∀ t : Str, stripArticles (theTok ++ aTok ++ t) = stripOneArticle t anTok) ∧
      normalize_title "The A Team".data true = "team".data := by
  constructor
  · intro t
    calc stripArticles (theTok ++ (aTok ++ t))
        = stripOneArticle (stripOneArticle
            (stripOneArticle (theTok ++ (aTok ++ t)) theTok) aTok) anTok := rfl
      _ = stripOneArticle (stripOneArticle (aTok ++ t) aTok) anTok := by
          rw [stripOne_append]
      _ = stripOneArticle t anTok := by rw [stripOne_append]
  · decide

/-- C9 counterexample: on "a 2 ii" both the trailing roman numeral and
the then-exposed trailing decimal are removed, so the claim that at most
one trailing token is removed (which would give "a 2") fails. -/
theorem strip_sequel_numbers_two_tokens_removed :
    strip_sequel_numbers "a 2 ii".data = "a".data ∧ "a".data ≠ "a 2".data :=
  ⟨by decide, by decide⟩

/-- C9 (amended): `strip_sequel_numbers` removes one trailing
roman-numeral token if present and then one trailing decimal token from
the result if present (each removal taking the final
whitespace-delimited token at that point, together with the whitespace
before it), then strips surrounding whitespace — so a title ending in a
decimal token followed by a roman token loses both. -/
theorem strip_sequel_numbers_roman_then_digit (t d r : Str)
    (ht : t ≠ [])
    (hh : ∀ c, t.head? = some c → isSpaceChar c = false)
    (hl : ∀ c, t.getLast? = some c → isSpaceChar c = false)
    (hd : d ≠ []) (hdall : ∀ c ∈ d, c.isDigit = true)
    (hr : r ≠ []) (hrall : ∀ c ∈ r, isRomanChar c = true) :
    strip_sequel_numbers (t ++ ' ' :: d ++ ' ' :: r) = t := by
  obtain ⟨lc, hlc⟩ := Option.isSome_iff_exists.1
    (List.getLast?_isSome.2 hd : d.getLast?.isSome)
  have hlast_td : (t ++ ' ' :: d).getLast? = some lc := by
    rw [show t ++ ' ' :: d = t ++ ([' '] ++ d) from rfl,
      List.getLast?_append_of_ne_nil _ (by simp [hd]),
      List.getLast?_append_of_ne_nil _ hd, hlc]
  have hcond1 : ∀ t2, t2 <:+ (t ++ ' ' :: d) → t2 ≠ [] →
      suffixRoman (t2 ++ (' ' :: r)) = false := by
    intro t2 ht2 hne
    have hlast2 : t2.getLast? = some lc := by rw [getLast?_suffix ht2 hne, hlast_td]
    exact suffixRoman_append_false hne
      ⟨lc, List.mem_of_getLast?_eq_some hlast2,
        isDigit_not_space (hdall lc (List.mem_of_getLast?_eq_some hlc))⟩
      (by simp)
  have step1 : dropSuffixAt suffixRoman (t ++ ' ' :: d ++ ' ' :: r) = t ++ ' ' :: d := by
    rw [show t ++ ' ' :: d ++ ' ' :: r = (t ++ ' ' :: d) ++ (' ' :: r) by simp,
      dropSuffixAt_append hcond1, dropSuffixAt_cons, suffixRoman_space hr hrall]
    simp
  obtain ⟨lt, hlt⟩ := Option.isSome_iff_exists.1
    (List.getLast?_isSome.2 ht : t.getLast?.isSome)
  have hcond2 : ∀ t2, t2 <:+ t → t2 ≠ [] →
      suffixDigits (t2 ++ (' ' :: d)) = false := by
    intro t2 ht2 hne
    have hlast2 : t2.getLast? = some lt := by rw [getLast?_suffix ht2 hne, hlt]
    exact suffixDigits_append_false hne
      ⟨lt, List.mem_of_getLast?_eq_some hlast2, hl lt hlt⟩ (by simp)
  have step2 : dropSuffixAt suffixDigits (t ++ ' ' :: d) = t := by
    rw [dropSuffixAt_append hcond2, dropSuffixAt_cons, suffixDigits_space hd hdall]
    simp
  show pyStrip (dropSuffixAt suffixDigits
    (dropSuffixAt suffixRoman (t ++ ' ' :: d ++ ' ' :: r))) = t
  rw [step1, step2, pyStrip_eq_self hh hl]

/-- C9 witness: the amended theorem applied to "matrix 2 ii". -/
theorem strip_sequel_numbers_roman_then_digit_witness :
    strip_sequel_numbers ("matrix".data ++ ' ' :: "2".data ++ ' ' :: "ii".data) =
      "matrix".data :=
  strip_sequel_numbers_roman_then_digit "matrix".data "2".data "ii".data
    (by decide)
    (by intro c hc; rw [show "matrix".data.head? = some 'm' from rfl] at hc
        cases hc; decide)
    (by intro c hc; rw [show "matrix".data.getLast? = some 'x' from rfl] at hc
        cases hc; decide)
    (by decide) (by decide) (by decide) (by decide)

/-- C3 counterexample: `normalize_title` is not idempotent; on
"an the cat" the first pass yields "the cat" and a second pass strips
the newly exposed article, yielding "cat". -/
theorem normalize_title_not_idempotent :
    normalize_title (normalize_title "an the cat".data true) true ≠
      normalize_title "an the cat".data true := by
  decide

/-- C3 (amended): `normalize_title` (with `strip_editions` at its
default) is idempotent on every input whose normalized output does not
begin with an article token "the ", "a ", "an "; a second application
can differ only by stripping such a newly exposed leading article. -/
theorem normalize_title_idem_of_no_article (s : Str)
    (h : startsWithArticle (normalize_title s true) = false) :
    normalize_title (normalize_title s true) true = normalize_title s true := by
  obtain ⟨ws, hy, hws⟩ := normalize_title_shape s
  by_cases hempty : (normalize_title s true).isEmpty = true
  · rw [List.isEmpty_iff] at hempty
    rw [hempty]
    rfl
  · set y := normalize_title s true with hydef
    rw [Bool.not_eq_true] at hempty
    have hchar : ∀ c ∈ y, Char.toLower c = c ∧ (isWordChar c = true ∨ c = ' ') := by
      intro c hc
      rw [hy] at hc
      rcases mem_joinWords hc with rfl | ⟨w, hw, hcw⟩
      · exact ⟨by decide, Or.inr rfl⟩
      · obtain ⟨-, hprops⟩ := hws w hw
        obtain ⟨-, hword, hlow⟩ := hprops c hcw
        exact ⟨hlow, Or.inl hword⟩
    have e1 : pyLower y = y := pyLower_eq_self (fun c hc => (hchar c hc).1)
    have harts : theTok.isPrefixOf y = false ∧ aTok.isPrefixOf y = false ∧
        anTok.isPrefixOf y = false := by
      have h' := h
      simp only [startsWithArticle, Bool.or_eq_false_iff] at h'
      exact ⟨h'.1.1, h'.1.2, h'.2⟩
    have e2 : stripArticles y = y := by
      show stripOneArticle (stripOneArticle (stripOneArticle y theTok) aTok) anTok = y
      rw [stripOneArticle_eq_self harts.1, stripOneArticle_eq_self harts.2.1,
        stripOneArticle_eq_self harts.2.2]
    have hnp : '(' ∉ y := by
      intro hc
      rcases (hchar _ hc).2 with hw | hsp
      · exact absurd hw (by decide)
      · exact absurd hsp (by decide)
    have hnd : '-' ∉ y := by
      intro hc
      rcases (hchar _ hc).2 with hw | hsp
      · exact absurd hw (by decide)
      · exact absurd hsp (by decide)
    have hnc : ':' ∉ y := by
      intro hc
      rcases (hchar _ hc).2 with hw | hsp
      · exact absurd hw (by decide)
      · exact absurd hsp (by decide)
    have e3 : editionSubs y = y := editionSubs_eq_self hnp hnd hnc
    have e4 : y.filter (fun c => isWordChar c || isSpaceChar c) = y := by
      rw [List.filter_eq_self]
      intro c hc
      rcases (hchar c hc).2 with hw | rfl
      · simp [hw]
      · decide
    have e5 : collapseWs y = y := by
      rw [hy, collapseWs, pySplitWs_joinWords ws
        (fun w hw => ⟨(hws w hw).1, fun c hc => ((hws w hw).2 c hc).1⟩)]
    have hstep : normalize_title y true = collapseWs
        ((editionSubs (stripArticles (pyLower y))).filter
          (fun c => isWordChar c || isSpaceChar c)) := by
      simp only [normalize_title, hempty, Bool.false_eq_true, if_false, if_true]
    rw [hstep, e1, e2, e3, e4, e5]

/-- C3 witness: the amended idempotence theorem applied to a concrete
title whose normalized output has no leading article. -/
theorem normalize_title_idem_witness :
    startsWithArticle (normalize_title "The  Cat!! Returns 42".data true) = false ∧
      normalize_title (normalize_title "The  Cat!! Returns 42".data true) true =
        normalize_title "The  Cat!! Returns 42".data true :=
  ⟨by decide, normalize_title_idem_of_no_article "The  Cat!! Returns 42".data (by decide)⟩

/-- C8: `creators_match` at the default threshold 80 returns true if and
only if either input is absent or empty, or — after lowercasing and
trimming both — the strings are equal, or one is a substring (infix) of
the other, or their final whitespace-delimited tokens exist and are
equal, or the symmetric edit-distance-based ratio (0-100) is at least
the threshold; in particular a missing creator on either side always
matches. -/
theorem creators_match_contract :
    (∀ a b : Option Str, creators_match a b 80 = true ↔
      (a = none ∨ a = some [] ∨ b = none ∨ b = some [] ∨
        ∃ s t : Str, a = some s ∧ b = some t ∧
          (pyStrip (pyLower s) = pyStrip (pyLower t) ∨
            pyStrip (pyLower s) <:+: pyStrip (pyLower t) ∨
            pyStrip (pyLower t) <:+: pyStrip (pyLower s) ∨
            (∃ w1 w2, (pySplitWs (pyStrip (pyLower s))).getLast? = some w1 ∧
              (pySplitWs (pyStrip (pyLower t))).getLast? = some w2 ∧ w1 = w2) ∨
            (80 : ℚ) ≤ fuzzRatio (pyStrip (pyLower s)) (pyStrip (pyLower t))))) ∧
    (∀ x : Option Str, creators_match none x 80 = true ∧
      creators_match x none 80 = true) := by
  constructor
  · intro a b
    cases a with
    | none => simp [creators_match]
    | some s =>
      cases b with
      | none => simp [creators_match]
      | some t =>
        by_cases hs : s.isEmpty = true
        · rw [List.isEmpty_iff] at hs
          subst hs
          simp [creators_match]
        · by_cases ht : t.isEmpty = true
          · rw [List.isEmpty_iff] at ht
            subst ht
            simp [creators_match]
          · rw [Bool.not_eq_true] at hs ht
            have hsne : s ≠ [] := by
              intro hx; rw [hx] at hs; cases hs
            have htne : t ≠ [] := by
              intro hx; rw [hx] at ht; cases ht
            have hl : creators_match (some s) (some t) 80 =
                (if pyStrip (pyLower s) = pyStrip (pyLower t) then true
                 else if containsSub (pyStrip (pyLower s)) (pyStrip (pyLower t)) ||
                     containsSub (pyStrip (pyLower t)) (pyStrip (pyLower s)) then true
                 else if lastTokensEqual (pySplitWs (pyStrip (pyLower s)))
                     (pySplitWs (pyStrip (pyLower t))) then true
                 else fuzzRatioGe (pyStrip (pyLower s)) (pyStrip (pyLower t)) 80) := by
              simp only [creators_match, hs, ht, Bool.or_self, Bool.false_eq_true, if_false]
            rw [hl, creators_chain_iff]
            have hcast : ((80 : Nat) : ℚ) = (80 : ℚ) := by norm_num
            rw [hcast]
            constructor
            · intro hchain
              exact Or.inr (Or.inr (Or.inr (Or.inr ⟨s, t, rfl, rfl, hchain⟩)))
            · intro hr
              rcases hr with h | h | h | h | ⟨s', t', hs', ht', hP⟩
              · cases h
              · rw [Option.some.injEq] at h
                exact absurd h hsne
              · cases h
              · rw [Option.some.injEq] at h
                exact absurd h htne
              · rw [Option.some.injEq] at hs' ht'
                subst hs'
                subst ht'
                exact hP
  · intro x
    refine ⟨?_, ?_⟩ <;> cases x <;> rfl

/-- C10: two items whose normalized titles agree (nonemptily) after
sequel-number stripping and whose creators are the same nonempty string
pass the strict fallback-scan match: `titles_match_strict` accepts via
its sequel-stripped-equality branch, and `creators_match` at the
escalated threshold 100 accepts on exact creator equality — so the
creator-threshold escalation does not prevent merging distinct numbered
sequels by the same creator. -/
theorem strict_match_merges_numbered_sequels (candidate target : Item) (c : Str)
    (h1 : candidate.title ≠ []) (h2 : target.title ≠ [])
    (h3 : strip_sequel_numbers (normalize_title candidate.title true) =
      strip_sequel_numbers (normalize_title target.title true))
    (h4 : strip_sequel_numbers (normalize_title candidate.title true) ≠ [])
    (h5 : candidate.creator = some c) (h6 : target.creator = some c) (_h7 : c ≠ []) :
    titles_match_strict (some candidate.title) (some target.title) 92 = true ∧
      creators_match candidate.creator target.creator 100 = true ∧
      is_strict_title_match candidate target = true := by
  have hie : (candidate.title.isEmpty || target.title.isEmpty) = false := by
    rw [List.isEmpty_eq_false.2 h1, List.isEmpty_eq_false.2 h2]
    rfl
  have hT : titles_match_strict (some candidate.title) (some target.title) 92 = true := by
    simp only [titles_match_strict, hie, Bool.false_eq_true, if_false]
    by_cases hA : normalize_title candidate.title true = normalize_title target.title true
    · rw [if_pos hA]
    · rw [if_neg hA]
      by_cases hB : ((containsSub (normalize_title candidate.title true)
            (normalize_title target.title true) ||
          containsSub (normalize_title target.title true)
            (normalize_title candidate.title true)) &&
          decide (5 ≤ min (normalize_title candidate.title true).length
            (normalize_title target.title true).length)) = true
      · rw [if_pos hB]
      · rw [if_neg hB, if_pos]
        rw [Bool.and_eq_true, Bool.and_eq_true]
        refine ⟨⟨?_, ?_⟩, ?_⟩
        · simp [List.isEmpty_eq_false.2 h4]
        · rw [← h3]
          simp [List.isEmpty_eq_false.2 h4]
        · rw [h3]
          simp
  have hC : creators_match candidate.creator target.creator 100 = true := by
    rw [h5, h6]
    simp only [creators_match]
    by_cases hc : (c.isEmpty || c.isEmpty) = true
    · rw [if_pos hc]
    · rw [if_neg hc]
      simp
  refine ⟨hT, hC, ?_⟩
  simp only [is_strict_title_match, hie, Bool.false_eq_true, if_false, hT,
    Bool.not_true, if_pos h3]
  exact hC

/-- C2: the bounded fallback scan is gated on both store queries having
returned zero raw rows and on the category size.  First conjunct
(ceiling): when both queries return no rows and the category holds more
than 5000 items, `find_duplicate` returns none.  Second conjunct
(raw-row gating): when either query returned rows but every row fails
its filter, `find_duplicate` returns none — the fallback scan is not
consulted even though it might match.  Third conjunct: in the ceiling
situation a candidate whose source identity is unknown proceeds to the
create-new outcome, `itemsAdded = 1`. -/
theorem fallback_scan_gating_and_ceiling :
    (∀ (store : Store) (it : Item),
      search_items store it.title (some it.category) = [] →
      search_items store (it.title.take 20) (some it.category) = [] →
      5000 < (get_items_by_category store it.category).length →
      find_duplicate store it = none) ∧
    (∀ (store : Store) (it : Item),
      (search_items store it.title (some it.category) ≠ [] ∨
        search_items store (it.title.take 20) (some it.category) ≠ []) →
      (∀ m ∈ search_items store it.title (some it.category),
        ¬(titles_match (some m.title) (some it.title) 85 = true ∧
          creators_match m.creator it.creator 80 = true)) →
      (∀ m ∈ search_items store (it.title.take 20) (some it.category),
        ¬(normalize_title m.title true = normalize_title it.title true ∧
          creators_match m.creator it.creator 80 = true)) →
      find_duplicate store it = none) ∧
    (∀ (store : Store) (it : Item) (link : ItemSource),
      find_item_by_source store link.source link.sourceId = none →
      search_items store it.title (some it.category) = [] →
      search_items store (it.title.take 20) (some it.category) = [] →
      5000 < (get_items_by_category store it.category).length →
      (import_parsed defaultHook store [(it, link)]).2.itemsAdded = 1) := by
  have hceil : ∀ (store : Store) (it : Item),
      search_items store it.title (some it.category) = [] →
      search_items store (it.title.take 20) (some it.category) = [] →
      5000 < (get_items_by_category store it.category).length →
      find_duplicate store it = none := by
    intro store it hs1 hs2 hcount
    simp only [find_duplicate, hs1, hs2, List.find?_nil, List.isEmpty_nil,
      Bool.and_self, if_true]
    rw [if_neg (by omega)]
  refine ⟨hceil, ?_, ?_⟩
  · intro store it hne hf1 hf2
    have hfind1 : (search_items store it.title (some it.category)).find?
        (fun m => titles_match (some m.title) (some it.title) 85 &&
          creators_match m.creator it.creator 80) = none := by
      rw [List.find?_eq_none]
      intro x hx hp
      exact hf1 x hx (by rwa [Bool.and_eq_true] at hp)
    have hfind2 : (search_items store (it.title.take 20) (some it.category)).find?
        (fun m => decide (normalize_title m.title true = normalize_title it.title true) &&
          creators_match m.creator it.creator 80) = none := by
      rw [List.find?_eq_none]
      intro x hx hp
      rw [Bool.and_eq_true] at hp
      exact hf2 x hx ⟨decide_eq_true_iff.1 hp.1, hp.2⟩
    have hgate : ((search_items store it.title (some it.category)).isEmpty &&
        (search_items store (it.title.take 20) (some it.category)).isEmpty) = false := by
      rcases hne with h | h
      · rw [List.isEmpty_eq_false.2 h, Bool.false_and]
      · rw [List.isEmpty_eq_false.2 h, Bool.and_false]
    simp only [find_duplicate, hfind1, hfind2, hgate, Bool.false_eq_true, if_false]
  · intro store it link hsrc hs1 hs2 hcount
    simp only [import_parsed, List.foldl_cons, List.foldl_nil, import_step,
      process_candidate, hsrc, hceil store it hs1 hs2 hcount, defaultHook,
      Bool.false_eq_true, if_false]

/-- C2 witness: a category of 5001 items named "z", none of which
contains the candidate title "qq", plus a small store exercising the
raw-row gating with an item found by the substring queries but rejected
by both filters. -/
theorem fallback_scan_gating_and_ceiling_witness :
    (find_duplicate bigGameStore
        ⟨9999, Category.game, "qq".data, none, [], 7, 7⟩ = none) ∧
    (find_duplicate ⟨[⟨1, Category.game, "Zqqqqqz".data, some "dave".data, [], 0, 0⟩], []⟩
        ⟨2, Category.game, "Qqqqq".data, some "alice bob".data, [], 7, 7⟩ = none) ∧
    ((import_parsed defaultHook bigGameStore
        [(⟨9999, Category.game, "qq".data, none, [], 7, 7⟩,
          ⟨9999, Source.steam, "sid".data, none, [], 7⟩)]).2.itemsAdded = 1) := by
  have hgen1 : ∀ L : List Nat, search_items ⟨L.map bigGameItem, []⟩
      ("qq".data) (some Category.game) = [] := by
    intro L
    rw [search_items, List.filter_eq_nil_iff]
    intro a ha
    obtain ⟨n, -, rfl⟩ := List.mem_map.1 ha
    have hp : searchPred "qq".data (some Category.game) (bigGameItem n) = false := rfl
    simp [hp]
  have hgen2 : ∀ L : List Nat, search_items ⟨L.map bigGameItem, []⟩
      ("qq".data.take 20) (some Category.game) = [] := by
    intro L
    rw [search_items, List.filter_eq_nil_iff]
    intro a ha
    obtain ⟨n, -, rfl⟩ := List.mem_map.1 ha
    have hp : searchPred ['q', 'q'] (some Category.game)
        (bigGameItem n) = false := rfl
    simp [hp]
  have hgenc : ∀ L : List Nat, (get_items_by_category ⟨L.map bigGameItem, []⟩
      Category.game).length = L.length := by
    intro L
    rw [get_items_by_category, List.filter_eq_self.2 (by
      intro a ha
      obtain ⟨n, -, rfl⟩ := List.mem_map.1 ha
      exact rfl), List.length_map]
  have hbig1 : search_items bigGameStore ("qq".data) (some Category.game) = [] :=
    hgen1 (List.range 5001)
  have hbig2 : search_items bigGameStore ("qq".data.take 20) (some Category.game) = [] :=
    hgen2 (List.range 5001)
  have hbigcount : 5000 < (get_items_by_category bigGameStore Category.game).length := by
    rw [show bigGameStore = ⟨(List.range 5001).map bigGameItem, []⟩ from rfl,
      hgenc (List.range 5001), List.length_range]
    omega
  refine ⟨fallback_scan_gating_and_ceiling.1 _ _ hbig1 hbig2 hbigcount,
    fallback_scan_gating_and_ceiling.2.1 _ _ (Or.inl (by decide)) (by decide) (by decide),
    fallback_scan_gating_and_ceiling.2.2 _ _ _ rfl hbig1 hbig2 hbigcount⟩

/-- C5 counterexample: with a single stored item "Alpha Beta Gamma Del"
(creator "Smith") and candidate "Alpha Beta Gamma Delta" (creator
"Smith"), the full-title query returns no rows, and the retry the claim
describes — querying with the first word of the title and accepting on
the lenient title match plus creator match — would find and accept the
stored item; yet `find_duplicate` returns none, because the code's
second query uses the first 20 characters of the title and accepts only
on exact normalized-title equality. -/
theorem find_duplicate_retry_counterexample :
    find_duplicate dupRetryStore dupRetryCandidate = none ∧
      search_items dupRetryStore dupRetryCandidate.title
        (some dupRetryCandidate.category) = [] ∧
      (search_items dupRetryStore (firstWordQuery dupRetryCandidate.title)
          (some dupRetryCandidate.category)).find?
        (fun x => titles_match (some x.title) (some dupRetryCandidate.title) 85 &&
          creators_match x.creator dupRetryCandidate.creator 80) =
        some dupRetryStoredItem := by
  refine ⟨by decide, by decide, by decide⟩

/-- C5 (amended): when the full-title pass of the cross-source duplicate
search accepts nothing, the Reconciler re-queries the store with the
first 20 characters of the raw title (not the first word, nor the first
5 characters) and links to the first row of that second query whose
normalized title equals the candidate's normalized title and whose
creator matches at the default threshold (not the lenient title
condition of the first pass). -/
theorem find_duplicate_second_pass (store : Store) (it m : Item)
    (h1 : ∀ x ∈ search_items store it.title (some it.category),
      ¬(titles_match (some x.title) (some it.title) 85 = true ∧
        creators_match x.creator it.creator 80 = true))
    (h2 : (search_items store (it.title.take 20) (some it.category)).find?
      (fun x => decide (normalize_title x.title true = normalize_title it.title true) &&
        creators_match x.creator it.creator 80) = some m) :
    find_duplicate store it = some m := by
  have hfind1 : (search_items store it.title (some it.category)).find?
      (fun x => titles_match (some x.title) (some it.title) 85 &&
        creators_match x.creator it.creator 80) = none := by
    rw [List.find?_eq_none]
    intro x hx hp
    exact h1 x hx (by rwa [Bool.and_eq_true] at hp)
  simp only [find_duplicate, hfind1, h2]

/-- C5 witness: the amended second-pass theorem applied to a store where
the candidate "Alpha Beta Gamma Delta" resolves to the stored
"Alpha Beta Gamma Del-ta" through the 20-character query and
normalized-title equality. -/
theorem find_duplicate_second_pass_witness :
    find_duplicate dupSecondPassStore dupSecondPassCand = some dupSecondPassItem :=
  find_duplicate_second_pass dupSecondPassStore dupSecondPassCand dupSecondPassItem
    (by decide) (by decide)

/-- C6: error isolation.  A parse failure short-circuits the import with
zero adds, zero updates, exactly one error naming the parse failure, and
an unchanged store.  A per-candidate failure (the post-import hook
raising) records the error string "Failed to import '<title>': <cause>"
and the remaining candidates are still processed: the final error list
is that message followed by the errors of importing the rest from the
post-candidate store, and the counts accumulate accordingly. -/
theorem import_error_isolation :
    (∀ (hook : Item → ItemSource → Except Str Unit) (store : Store) (e : Str),
      import_from_file hook store (Except.error e) =
        (store, ⟨0, 0, [failParseMsg e]⟩)) ∧
    (∀ (hook : Item → ItemSource → Except Str Unit) (store : Store)
        (item : Item) (link : ItemSource) (rest : List (Item × ItemSource)) (m : Str),
      hook (process_candidate store item link).2.1
          (process_candidate store item link).2.2.1 = Except.error m →
      (import_parsed hook store ((item, link) :: rest)).2.errors =
        failImportMsg item.title m ::
          (import_parsed hook (process_candidate store item link).1 rest).2.errors ∧
      (import_parsed hook store ((item, link) :: rest)).2.itemsAdded =
        (import_parsed hook store [(item, link)]).2.itemsAdded +
          (import_parsed hook (process_candidate store item link).1 rest).2.itemsAdded ∧
      (import_parsed hook store ((item, link) :: rest)).2.itemsUpdated =
        (import_parsed hook store [(item, link)]).2.itemsUpdated +
          (import_parsed hook (process_candidate store item link).1 rest).2.itemsUpdated) := by
  constructor
  · intro hook store e
    rfl
  · intro hook store item link rest m hfail
    have htitle := process_candidate_title store item link
    rcases hpc : process_candidate store item link with ⟨S1, item', link', updated⟩
    rw [hpc] at hfail htitle
    simp only [] at hfail htitle ⊢
    have hstep : import_step hook (store, ⟨0, 0, []⟩) (item, link) =
        (S1, ⟨(if updated then 0 else 1), (if updated then 1 else 0),
          [failImportMsg item.title m]⟩) := by
      simp only [import_step, hpc]
      cases updated <;> simp [hfail, htitle]
    simp only [import_parsed, List.foldl_cons, List.foldl_nil, hstep]
    rw [import_parsed_accum]
    cases updated <;> simp

/-- C6 witness: a parse failure, and an always-raising hook over a batch
of two candidates — the first candidate's failure is recorded and the
second candidate is still processed. -/
theorem import_error_isolation_witness :
    (import_from_file boomHook ⟨[], []⟩ (Except.error "bad csv".data) =
      (⟨[], []⟩, ⟨0, 0, [failParseMsg "bad csv".data]⟩)) ∧
    ((import_parsed boomHook ⟨[], []⟩ [(errItemA, errLinkA), (errItemB, errLinkB)]).2.errors =
      failImportMsg errItemA.title "boom".data ::
        (import_parsed boomHook (process_candidate ⟨[], []⟩ errItemA errLinkA).1
          [(errItemB, errLinkB)]).2.errors ∧
      (import_parsed boomHook ⟨[], []⟩
          [(errItemA, errLinkA), (errItemB, errLinkB)]).2.itemsAdded =
        (import_parsed boomHook ⟨[], []⟩ [(errItemA, errLinkA)]).2.itemsAdded +
          (import_parsed boomHook (process_candidate ⟨[], []⟩ errItemA errLinkA).1
            [(errItemB, errLinkB)]).2.itemsAdded ∧
      (import_parsed boomHook ⟨[], []⟩
          [(errItemA, errLinkA), (errItemB, errLinkB)]).2.itemsUpdated =
        (import_parsed boomHook ⟨[], []⟩ [(errItemA, errLinkA)]).2.itemsUpdated +
          (import_parsed boomHook (process_candidate ⟨[], []⟩ errItemA errLinkA).1
            [(errItemB, errLinkB)]).2.itemsUpdated) :=
  ⟨import_error_isolation.1 boomHook ⟨[], []⟩ "bad csv".data,
   import_error_isolation.2 boomHook ⟨[], []⟩ errItemA errLinkA
     [(errItemB, errLinkB)] "boom".data rfl⟩

/-- C7: frame distinction of the two UPDATED paths.  When the
source-identity lookup hits an existing item, the stored row with that
id keeps its id, category and created_at but has its title, creator and
metadata overwritten with the incoming values, and the source link is
upserted onto that id.  When the source-identity lookup misses and the
duplicate search matches instead, the item rows are left completely
unchanged — in particular the matched item's title and creator — and
only a source link carrying the matched item's id is upserted. -/
theorem updated_paths_frame :
    (∀ (store : Store) (item : Item) (link : ItemSource) (e : Item),
      find_item_by_source store link.source link.sourceId = some e →
      (process_candidate store item link).1.items =
        store.items.map (fun r =>
          if r.id = e.id then
            {r with title := item.title, creator := item.creator,
                    metadata := item.metadata, updatedAt := item.updatedAt}
          else r) ∧
      (process_candidate store item link).1.sources =
        upsertSourceRows store.sources {link with itemId := e.id} ∧
      (process_candidate store item link).2.2.2 = true) ∧
    (∀ (store : Store) (item : Item) (link : ItemSource) (d : Item),
      find_item_by_source store link.source link.sourceId = none →
      find_duplicate store item = some d →
      (process_candidate store item link).1.items = store.items ∧
      (process_candidate store item link).1.sources =
        upsertSourceRows store.sources {link with itemId := d.id} ∧
      (process_candidate store item link).2.2.2 = true) := by
  constructor
  · intro store item link e h0
    have he : e ∈ store.items := by
      rw [find_item_by_source] at h0
      cases hfind : store.sources.find? (fun l =>
          decide (l.source = link.source) && decide (l.sourceId = link.sourceId)) with
      | none => rw [hfind] at h0; cases h0
      | some l =>
        rw [hfind] at h0
        exact List.mem_of_find?_eq_some h0
    have hany : store.items.any (fun r => decide (r.id = e.id)) = true :=
      List.any_eq_true.2 ⟨e, he, by simp⟩
    simp only [process_candidate, h0]
    refine ⟨?_, rfl, trivial⟩
    show upsertItemRows store.items {item with id := e.id, createdAt := e.createdAt} = _
    rw [upsertItemRows, if_pos hany]
  · intro store item link d h0 hd
    simp only [process_candidate, h0, hd]
    exact ⟨rfl, rfl, trivial⟩

/-- C7 witness: the source-identity path applied to a store with a
linked item, and the duplicate path applied to a store holding a
same-title same-creator item with no link. -/
theorem updated_paths_frame_witness :
    ((process_candidate frameStore frameCand frameLink).1.items =
        frameStore.items.map (fun r =>
          if r.id = frameStoreItem.id then
            {r with title := frameCand.title, creator := frameCand.creator,
                    metadata := frameCand.metadata, updatedAt := frameCand.updatedAt}
          else r) ∧
      (process_candidate frameStore frameCand frameLink).1.sources =
        upsertSourceRows frameStore.sources {frameLink with itemId := frameStoreItem.id} ∧
      (process_candidate frameStore frameCand frameLink).2.2.2 = true) ∧
    ((process_candidate frameStore2 frameCand2 frameLink2).1.items = frameStore2.items ∧
      (process_candidate frameStore2 frameCand2 frameLink2).1.sources =
        upsertSourceRows frameStore2.sources {frameLink2 with itemId := frameDupItem.id} ∧
      (process_candidate frameStore2 frameCand2 frameLink2).2.2.2 = true) :=
  ⟨updated_paths_frame.1 frameStore frameCand frameLink frameStoreItem (by decide),
   updated_paths_frame.2 frameStore2 frameCand2 frameLink2 frameDupItem
     (by decide) (by decide)⟩

/-- C10 witness: "Matrix 2" and "Matrix 3" by the same creator are
accepted by the strict fallback-scan match. -/
theorem strict_match_merges_numbered_sequels_witness :
    titles_match_strict (some "Matrix 2".data) (some "Matrix 3".data) 92 = true ∧
      creators_match (some "Wachowski".data) (some "Wachowski".data) 100 = true ∧
      is_strict_title_match
        ⟨1, Category.movie, "Matrix 2".data, some "Wachowski".data, [], 0, 0⟩
        ⟨2, Category.movie, "Matrix 3".data, some "Wachowski".data, [], 0, 0⟩ = true :=
  strict_match_merges_numbered_sequels
    ⟨1, Category.movie, "Matrix 2".data, some "Wachowski".data, [], 0, 0⟩
    ⟨2, Category.movie, "Matrix 3".data, some "Wachowski".data, [], 0, 0⟩
    "Wachowski".data (by decide) (by decide) (by decide) (by decide) rfl rfl (by decide)

/-- C1 counterexample: import idempotence fails for some store and batch.
On `c1Store0` (one game "Q-q-q-q-q" with a steam link whose source id is
"y") the batch `c1Batch` dedups its first candidate onto the stored item,
but `upsert_item_source` keeps the conflicting row's source id "y", so on
the second run the first candidate is not resolved by the source-identity
lookup; the second candidate's title now pollutes its substring queries,
the fallback scan is gated off, and the second run reports
`itemsAdded = 1` (the claim demands 0) while the game item count grows
from 2 to 3. -/
theorem import_batch_not_idempotent :
    (import_parsed defaultHook
        (import_parsed defaultHook c1Store0 c1Batch).1 c1Batch).2.itemsAdded = 1 ∧
    itemCount (import_parsed defaultHook c1Store0 c1Batch).1 Category.game = 2 ∧
    itemCount (import_parsed defaultHook
        (import_parsed defaultHook c1Store0 c1Batch).1 c1Batch).1 Category.game = 3 := by
  decide

/-- C1 (amended): the claim's parenthetical premise made explicit.  If
after the first run every candidate of the batch is resolvable by the
source-identity lookup, then re-running the identical batch yields
`itemsAdded = 0`, `itemsUpdated = N` (the candidate count), and leaves
every category's item count unchanged.  The unconditional claim is
refuted by `import_batch_not_idempotent`: a candidate merged by the
duplicate search can stay unresolvable because the link upsert keeps a
conflicting row's source id. -/
theorem import_batch_second_run (store : Store) (cands : List (Item × ItemSource))
    (h : ∀ c ∈ cands,
      (find_item_by_source (import_parsed defaultHook store cands).1
        c.2.source c.2.sourceId).isSome = true) :
    (import_parsed defaultHook
        (import_parsed defaultHook store cands).1 cands).2.itemsAdded = 0 ∧
    (import_parsed defaultHook
        (import_parsed defaultHook store cands).1 cands).2.itemsUpdated = cands.length ∧
    ∀ cat, itemCount (import_parsed defaultHook
        (import_parsed defaultHook store cands).1 cands).1 cat =
      itemCount (import_parsed defaultHook store cands).1 cat := by
  obtain ⟨h1, _, hadd, hupd, _⟩ :=
    import_parsed_resolved cands (import_parsed defaultHook store cands).1 h
  exact ⟨hadd, hupd, fun cat => itemCount_congr _ _ h1 cat⟩

/-- C1 witness: the amended theorem applied to the empty store and the
one-candidate batch `[(idemItem, idemLink)]`. -/
theorem import_batch_second_run_witness :
    (import_parsed defaultHook
        (import_parsed defaultHook ⟨[], []⟩ [(idemItem, idemLink)]).1
        [(idemItem, idemLink)]).2.itemsAdded = 0 ∧
    (import_parsed defaultHook
        (import_parsed defaultHook ⟨[], []⟩ [(idemItem, idemLink)]).1
        [(idemItem, idemLink)]).2.itemsUpdated = 1 ∧
    itemCount (import_parsed defaultHook
        (import_parsed defaultHook ⟨[], []⟩ [(idemItem, idemLink)]).1
        [(idemItem, idemLink)]).1 Category.music =
      itemCount (import_parsed defaultHook ⟨[], []⟩ [(idemItem, idemLink)]).1
        Category.music := by
  obtain ⟨h1, h2, h3⟩ :=
    import_batch_second_run ⟨[], []⟩ [(idemItem, idemLink)] (by decide)
  exact ⟨h1, h2, h3 Category.music⟩
